import Mathlib

/-!
Verification of the core subsystems of this repository against its
natural-language specification: the base64-to-object-storage offload
pipeline (src/app/lib/s3-utils.ts) and the ping-aware MCP transport
wrapper (src/lib/mcp-transport.ts).

The TypeScript code is shallowly embedded: JSON values become an inductive
type, the storage client and its nondeterminism (uuid generation, presigned
URL issuance, network failures) become an explicit environment indexed by
the upload-attempt counter, and JavaScript exceptions (TypeError on null
member access) become an Option layer.  Object mutation, which the spec
discusses, is modelled separately by an explicit heap of addressed cells.
-/

namespace S3U

/-- JSON values, the shape of the data the offload pipeline walks.
Numbers are modelled as integers; no claim depends on numeric values. -/
inductive Json where
  | null
  | bool (b : Bool)
  | num (n : Int)
  | str (s : String)
  | arr (items : List Json)
  | obj (fields : List (String × Json))

/-- Property lookup on an object; anything else has no named properties
(array index properties are never consulted by the pipeline). -/
def Json.getField? : Json → String → Option Json
  | .obj fields, key => fields.lookup key
  | _, _ => none

/-- Strict equality of a possibly-absent value against a string literal,
the shape of every === test the pipeline performs (part.type === "image"
and the like): true exactly when the value is present and is that string. -/
def isStrEq (v : Option Json) (s : String) : Bool :=
  match v with
  | some (.str t) => t = s
  | _ => false

/-- JavaScript truthiness of a value (arrays and objects are truthy). -/
def jsTruthy : Json → Bool
  | .null => false
  | .bool b => b
  | .num n => n != 0
  | .str s => s != ""
  | .arr _ => true
  | .obj _ => true

/-- Truthiness of a possibly-absent property (undefined is falsy). -/
def jsTruthyOpt : Option Json → Bool
  | some v => jsTruthy v
  | none => false

/-- Whether the property is present and truthy, as in the guards
if (part.image), if (part.mimeType) of s3-utils.ts. -/
def truthyField (j : Json) (key : String) : Bool :=
  jsTruthyOpt (j.getField? key)

/-- The JavaScript expression a || b over two possibly-absent values. -/
def jsOr (a b : Option Json) : Option Json :=
  match a with
  | some v => if jsTruthy v then some v else b
  | none => b

/-- The JavaScript expression a || d with a literal default. -/
def jsOrD (a : Option Json) (d : Json) : Json :=
  match a with
  | some v => if jsTruthy v then v else d
  | none => d

/-- The JavaScript expression a || b || d with a literal default. -/
def jsOrD2 (a b : Option Json) (d : Json) : Json :=
  jsOrD a (jsOrD b d)

/-- Property deletion (delete part.data): removes the key, keeps order. -/
def Json.deleteField : Json → String → Json
  | .obj fields, key => .obj (fields.filter (fun f => f.1 != key))
  | j, _ => j

/-- Assignment to an existing key updates it in place; a new key is
appended, as JavaScript property assignment does. -/
def setFieldList : List (String × Json) → String → Json → List (String × Json)
  | [], key, v => [(key, v)]
  | (k0, v0) :: rest, key, v =>
    if k0 = key then (key, v) :: rest else (k0, v0) :: setFieldList rest key v

/-- Property assignment (part.url = url). -/
def Json.setField : Json → String → Json → Json
  | .obj fields, key, v => .obj (setFieldList fields key v)
  | j, _, _ => j

/-! String primitives are defined over the underlying character lists, so
that every definition evaluates by kernel reduction on concrete inputs. -/

/-- The test s.startsWith(p) of JavaScript. -/
def strStartsWith (s p : String) : Bool :=
  p.data.isPrefixOf s.data

/-- The test s.includes(p) of JavaScript: p occurs as a contiguous
substring of s. -/
def strIncludes (s p : String) : Bool :=
  (List.range (s.data.length + 1)).any
    (fun i => p.data.isPrefixOf (s.data.drop i))

/-- The call s.split(sep) of JavaScript for a one-character separator. -/
def splitOnChar (sep : Char) : List Char → List (List Char)
  | [] => [[]]
  | c :: rest =>
    let r := splitOnChar sep rest
    if c = sep then [] :: r
    else
      match r with
      | h :: t => (c :: h) :: t
      | [] => [[c]]

/-- Concatenation with comma separators, Array.prototype.join(","). -/
def joinWithComma : List String → String
  | [] => ""
  | [s] => s
  | s :: rest => s ++ "," ++ joinWithComma rest

mutual

/-- JavaScript string coercion String(x), as applied by template literals
and by RegExp.test when the pipeline passes a non-string filename through:
strings are themselves, primitives print, plain objects print as
"[object Object]", arrays join their elements with commas (null and
undefined elements joining as the empty string). -/
def jsToString : Json → String
  | .null => "null"
  | .bool b => if b then "true" else "false"
  | .num n => toString n
  | .str s => s
  | .obj _ => "[object Object]"
  | .arr items => joinWithComma (jsToStringElems items)

/-- String coercion of the elements of an array, for Array.prototype.join. -/
def jsToStringElems : List Json → List String
  | [] => []
  | .null :: rest => "" :: jsToStringElems rest
  | j :: rest => jsToString j :: jsToStringElems rest

end

/-- String coercion of a string value is that string. -/
@[simp] theorem jsToString_str (s : String) : jsToString (.str s) = s := by
  simp [jsToString]

/-! ## The upload primitive (s3-utils.ts lines 17-157)

The S3 client, uuid generator and presigner are external collaborators.
They are modelled by an environment indexed by the upload-attempt counter:
the k-th call of uploadBase64ToS3 in one offload call consumes the k-th
uuid, the k-th PUT outcome and the k-th presign outcome. -/

/-- Result of the regex match parsing a data URL (parseDataUrl, lines
53-61): the pattern data:([^;]+);base64,(.+) anchored at both ends, where
the dot of the payload group does not match JavaScript line terminators. -/
structure DataUrlParts where
  mimeType : String
  data : String

/-- Line terminators, which the dot of a JavaScript regex never matches. -/
def isJsLineTerminator (c : Char) : Bool :=
  c = '\n' || c = '\r' || c = Char.ofNat 0x2028 || c = Char.ofNat 0x2029

/-- Extract base64 data and mime type from a data URL (parseDataUrl):
the mime group is the nonempty run up to the first semicolon, which must
be followed by the literal ";base64," and a nonempty payload free of line
terminators (the dot excludes them and the match is anchored). -/
def parseDataUrl (dataUrl : String) : Option DataUrlParts :=
  if strStartsWith dataUrl "data:" then
    let rest := dataUrl.data.drop 5
    let mime := rest.takeWhile (fun c => c ≠ ';')
    let after := rest.drop mime.length
    if !mime.isEmpty ∧ ";base64,".data.isPrefixOf after then
      let payload := after.drop 8
      if !payload.isEmpty ∧ payload.all (fun c => !isJsLineTerminator c) then
        some ⟨⟨mime⟩, ⟨payload⟩⟩
      else none
    else none
  else none

/-- Characters of the base64 alphabet proper, the class [A-Za-z0-9+/]. -/
def isBase64Char (c : Char) : Bool :=
  ('A' ≤ c && c ≤ 'Z') || ('a' ≤ c && c ≤ 'z') || ('0' ≤ c && c ≤ '9') ||
    c = '+' || c = '/'

/-- The raw-base64 heuristic: the regex [A-Za-z0-9+/]+=*, anchored at both
ends, tested against the first 100 characters of the string (the
substring(0, 100) tests at s3-utils.ts lines 177, 249, 322 and 356).
Equivalently: a nonempty run of base64-alphabet characters followed only
by equals signs. -/
def looksLikeRawBase64 (s : String) : Bool :=
  let t := s.data.take 100
  let core := t.takeWhile isBase64Char
  !core.isEmpty && (t.drop core.length).all (fun c => c = '=')

/-- The static MIME-to-extension table (getExtensionFromMimeType). -/
def mimeExtTable : List (String × String) :=
  [("image/jpeg", "jpg"), ("image/png", "png"), ("image/gif", "gif"),
   ("image/webp", "webp"), ("image/svg+xml", "svg"), ("video/mp4", "mp4"),
   ("video/webm", "webm"), ("audio/mpeg", "mp3"), ("audio/wav", "wav"),
   ("audio/ogg", "ogg"), ("application/pdf", "pdf"),
   ("application/json", "json"), ("text/plain", "txt"), ("text/html", "html"),
   ("text/css", "css"), ("text/javascript", "js"),
   ("application/javascript", "js"), ("application/octet-stream", "bin")]

/-- Extension derivation for a string MIME type (getExtensionFromMimeType,
lines 66-89): the table, else the second slash-separated component when it
is nonempty, else "bin". -/
def getExtensionFromMimeType (mimeType : String) : String :=
  match mimeExtTable.lookup mimeType with
  | some e => e
  | none =>
    match (splitOnChar '/' mimeType.data).drop 1 with
    | [] => "bin"
    | p :: _ => if p.isEmpty then "bin" else ⟨p⟩

/-- Extension derivation for an arbitrary value flowing into the mimeType
parameter: property lookup coerces the key to a string, but the fallback
mimeType.split call is a TypeError (none) when the value is not a string. -/
def getExtensionFromMimeTypeJs (m : Json) : Option String :=
  match m with
  | .str s => some (getExtensionFromMimeType s)
  | _ =>
    match mimeExtTable.lookup (jsToString m) with
    | some e => some e
    | none => none

/-- Test of the regex \.[a-zA-Z0-9]+$ (line 116): the string ends in a dot
followed by a nonempty run of ASCII alphanumerics. -/
def hasFileExtension (s : String) : Bool :=
  let r := s.data.reverse
  let ext := r.takeWhile (fun c => c.isAlpha || c.isDigit)
  !ext.isEmpty && (r.drop ext.length).head? = some '.'

/-- Outcome environment of the external storage service, indexed by the
upload-attempt counter of one offload call. -/
structure S3Env where
  uuid : Nat → String
  presign : String → Nat → String
  putFails : Nat → Bool
  presignFails : Nat → Bool

/-- Failure modes of uploadBase64ToS3: the invalid-input throw (line 106),
a TypeError from deriving an extension of a non-string mime value, and a
rejection from the storage client (PUT or presign). -/
inductive UploadError where
  | invalidInput
  | typeError
  | storageFailure
deriving DecidableEq, Repr

/-- What a successful upload produced: the storage key, the content type
sent with the PUT, the presigned URL and its expiry in seconds. -/
structure UploadRecord where
  key : String
  contentType : Json
  url : String
  expiresIn : Nat

/-- The mime value and payload the upload settles on (the parsed local of
uploadBase64ToS3: the parsed data URL, else the raw input paired with the
explicitly passed mime value when that value is truthy). -/
structure ParsedBase64 where
  data : String
  mimeType : Json

/-- Derivation of the default filename file.<ext> (lines 124-128). -/
def defaultUploadFilename (mime : Json) : Except UploadError String :=
  match getExtensionFromMimeTypeJs mime with
  | some ext => Except.ok ("file." ++ ext)
  | none => Except.error UploadError.typeError

/-- Upload a base64 file to S3 and return the presigned URL
(uploadBase64ToS3, lines 94-157).  k is the index of this upload attempt
within its offload call; the filename and mimeType parameters carry the
raw JavaScript values the callers pass (usually strings).  Returns the
stored key, content type, presigned URL and expiry, or the error the
promise rejects with. -/
def uploadBase64ToS3 (env : S3Env) (k : Nat) (base64Data : String)
    (originalFilename : Option Json) (mimeType : Option Json) :
    Except UploadError UploadRecord :=
  let parsed : Option ParsedBase64 :=
    match parseDataUrl base64Data with
    | some pd => some ⟨pd.data, .str pd.mimeType⟩
    | none =>
      match mimeType with
      | some mv => if jsTruthy mv then some ⟨base64Data, mv⟩ else none
      | none => none
  match parsed with
  | none => Except.error UploadError.invalidInput
  | some p =>
    let uuid := env.uuid k
    let filenameE : Except UploadError String :=
      match originalFilename with
      | some f =>
        if jsTruthy f then
          if hasFileExtension (jsToString f) then Except.ok (jsToString f)
          else
            match getExtensionFromMimeTypeJs p.mimeType with
            | some ext => Except.ok (jsToString f ++ "." ++ ext)
            | none => Except.error UploadError.typeError
        else defaultUploadFilename p.mimeType
      | none => defaultUploadFilename p.mimeType
    match filenameE with
    | Except.error e => Except.error e
    | Except.ok filename =>
      let key := "uploads/" ++ uuid ++ "/" ++ filename
      if env.putFails k then Except.error UploadError.storageFailure
      else if env.presignFails k then Except.error UploadError.storageFailure
      else Except.ok ⟨key, p.mimeType, env.presign key (3600 * 24 * 7), 3600 * 24 * 7⟩

/-! ## The generic recursive walk (replaceBase64InObject, lines 162-205)

The upload-attempt counter k is threaded through the traversal in the
order the uploadBase64ToS3 calls begin; each call consumes one index of
the environment.  Cloning by JSON.parse(JSON.stringify(.)) is the
identity on this value level; mutation is treated in the heap model
below.  The walk never throws: every upload failure is caught at the
string leaf and the original string is kept. -/

mutual

/-- Recursively search and replace base64 data with S3 URLs.  A string
leaf that is a data URL (starts with "data:" and includes ";base64,") is
uploaded without a mime argument; otherwise, when the inherited mime hint
is truthy and the first 100 characters look like raw base64, it is
uploaded with that hint.  Arrays and objects are rebuilt from recursively
processed members; at a "data" key whose parent carries a "mimeType"
sibling, that sibling value replaces the inherited hint. -/
def replaceBase64InObject (env : S3Env) (obj : Json) (filename : Option Json)
    (mimeType : Option Json) (k : Nat) : Json × Nat :=
  match obj with
  | .str s =>
    if strStartsWith s "data:" && strIncludes s ";base64," then
      match uploadBase64ToS3 env k s filename none with
      | Except.ok r => (.str r.url, k + 1)
      | Except.error _ => (.str s, k + 1)
    else if jsTruthyOpt mimeType && looksLikeRawBase64 s then
      match uploadBase64ToS3 env k s filename mimeType with
      | Except.ok r => (.str r.url, k + 1)
      | Except.error _ => (.str s, k + 1)
    else (.str s, k)
  | .arr items =>
    let r := replaceBase64InList env items filename mimeType k
    (.arr r.1, r.2)
  | .obj fields =>
    let r := replaceBase64InFields env (fields.lookup "mimeType") fields
      filename mimeType k
    (.obj r.1, r.2)
  | j => (j, k)

/-- The walk over the items of an array (the Promise.all over obj.map). -/
def replaceBase64InList (env : S3Env) (items : List Json)
    (filename : Option Json) (mimeType : Option Json) (k : Nat) :
    List Json × Nat :=
  match items with
  | [] => ([], k)
  | x :: rest =>
    let r1 := replaceBase64InObject env x filename mimeType k
    let r2 := replaceBase64InList env rest filename mimeType r1.2
    (r1.1 :: r2.1, r2.2)

/-- The walk over the entries of an object; parentMime is the value of
the mimeType property of the object being walked, if present, which
becomes the hint for the value at a "data" key. -/
def replaceBase64InFields (env : S3Env) (parentMime : Option Json)
    (fields : List (String × Json)) (filename : Option Json)
    (mimeType : Option Json) (k : Nat) : List (String × Json) × Nat :=
  match fields with
  | [] => ([], k)
  | (key, v) :: rest =>
    let cm := if key = "data" && parentMime.isSome then parentMime else mimeType
    let r1 := replaceBase64InObject env v filename cm k
    let r2 := replaceBase64InFields env parentMime rest filename mimeType r1.2
    ((key, r1.1) :: r2.1, r2.2)

end

/-- Process tool arguments and replace base64 data with S3 URLs
(processToolCallForBase64, lines 210-229): deep-clones the arguments
(the identity here), extracts a filename property when the arguments are
an object carrying one, and runs the generic walk with no mime hint. -/
def processToolCallForBase64 (env : S3Env) (k : Nat) (toolName : String)
    (args : Json) : (String × Json) × Nat :=
  let filename : Option Json :=
    match args with
    | .obj fields => fields.lookup "filename"
    | _ => none
  let r := replaceBase64InObject env args filename none k
  ((toolName, r.1), r.2)

/-! ## The tool-result content path (processToolResultForBase64, 234-296)

JavaScript member access on null throws a TypeError; the Option layer
models the resulting promise rejection (none).  Each uploadable item
creates one upload attempt, in item order. -/

/-- Whether a content item triggers an upload: its type is the string
"image" or "file", its data property is a truthy string, and that string
starts with "data:" or passes the raw-base64 heuristic (lines 247-251). -/
def contentItemUploadable (item : Json) : Bool :=
  (isStrEq (item.getField? "type") "image" ||
    isStrEq (item.getField? "type") "file") &&
  (match item.getField? "data" with
   | some (.str d) =>
     d != "" && (strStartsWith d "data:" ||
       (!strStartsWith d "data:" && looksLikeRawBase64 d))
   | _ => false)

/-- The mime type the tool-result path settles on for an item (line 258):
the mimeType property when truthy, else a per-type default. -/
def toolItemMime (item : Json) : Json :=
  jsOrD (item.getField? "mimeType")
    (if isStrEq (item.getField? "type") "image" then .str "image/jpeg"
     else .str "application/octet-stream")

/-- The filename the tool-result path settles on for an item (line 261):
the filename property when truthy, else the truthy call fallback, else a
per-type default. -/
def toolItemFilename (item : Json) (fallbackFilename : Option String) : Json :=
  let defName : Json :=
    if isStrEq (item.getField? "type") "image" then .str "screenshot"
    else .str "file"
  let fb : Json :=
    match fallbackFilename with
    | some f => if f != "" then .str f else defName
    | none => defName
  jsOrD (item.getField? "filename") fb

/-- Process one tool-result content item (the loop body, lines 243-281):
a null item is the TypeError of item.type (none); an uploadable item
attempts one upload and on success replaces its data property with a url
property (the mimeType property is deliberately kept, lines 270-273); on
failure the item is left unchanged.  Anything else passes through. -/
def processContentItem (env : S3Env) (k : Nat) (fallbackFilename : Option String)
    (item : Json) : Option (Json × Nat) :=
  match item with
  | .null => none
  | _ =>
    let isImage := isStrEq (item.getField? "type") "image"
    let isFile := isStrEq (item.getField? "type") "file"
    if isImage || isFile then
      match item.getField? "data" with
      | some (.str d) =>
        if d != "" then
          let isDataUrl := strStartsWith d "data:"
          let isB64 := !isDataUrl && looksLikeRawBase64 d
          if isDataUrl || isB64 then
            match uploadBase64ToS3 env k d
                (some (toolItemFilename item fallbackFilename))
                (if isB64 then some (toolItemMime item) else none) with
            | Except.ok r =>
              some ((item.deleteField "data").setField "url" (.str r.url), k + 1)
            | Except.error _ => some (item, k + 1)
          else some (item, k)
        else some (item, k)
      | _ => some (item, k)
    else some (item, k)

/-- The loop over the content items, threading the attempt counter. -/
def processContentList (env : S3Env) (k : Nat) (fallbackFilename : Option String) :
    List Json → Option (List Json × Nat)
  | [] => some ([], k)
  | item :: rest =>
    match processContentItem env k fallbackFilename item with
    | none => none
    | some (item2, k2) =>
      match processContentList env k2 fallbackFilename rest with
      | none => none
      | some (rest2, k3) => some (item2 :: rest2, k3)

/-- Process tool results and replace base64 data with S3 URLs
(processToolResultForBase64): when the result is an object whose content
property is an array, the clone of the result has each content item
processed in place; otherwise the generic walk runs on the result itself. -/
def processToolResultForBase64 (env : S3Env) (k : Nat) (result : Json)
    (filename : Option String) : Option (Json × Nat) :=
  match result with
  | .obj fields =>
    match fields.lookup "content" with
    | some (.arr items) =>
      match processContentList env k filename items with
      | none => none
      | some (items2, k2) =>
        some ((Json.obj fields).setField "content" (.arr items2), k2)
    | _ =>
      some (replaceBase64InObject env result (filename.map .str) none k)
  | _ => some (replaceBase64InObject env result (filename.map .str) none k)

/-! ## The message-list path (processMessagesForBase64, lines 301-391) -/

/-- The payload an image part offers: part.image when truthy, else
part.data (line 318). -/
def messageImagePayload (part : Json) : Option Json :=
  jsOr (part.getField? "image") (part.getField? "data")

/-- The filename of an image part upload: part.filename || "image". -/
def messageImageFilename (part : Json) : Json :=
  jsOrD (part.getField? "filename") (.str "image")

/-- The mime of an image part upload: part.mimeType || "image/jpeg". -/
def messageImageMime (part : Json) : Json :=
  jsOrD (part.getField? "mimeType") (.str "image/jpeg")

/-- The filename of a file part upload: part.filename || part.name ||
"file". -/
def messageFileFilename (part : Json) : Json :=
  jsOrD2 (part.getField? "filename") (part.getField? "name") (.str "file")

/-- The mime of a file part upload: part.mimeType || part.mediaType ||
"application/octet-stream". -/
def messageFileMime (part : Json) : Json :=
  jsOrD2 (part.getField? "mimeType") (part.getField? "mediaType")
    (.str "application/octet-stream")

/-- Process an image content part (lines 316-350): the payload is
part.image when truthy, else part.data; when it is a nonempty string that
is a data URL or looks like raw base64, one upload is attempted with
filename part.filename || "image" and mime part.mimeType || "image/jpeg"
(the mime is passed along only for raw base64).  On success, a truthy
image property is overwritten with the URL in place; otherwise a truthy
data property is deleted and a url property added; finally a truthy
mimeType property is deleted.  On failure the part is unchanged. -/
def processImagePart (env : S3Env) (k : Nat) (part : Json) : Json × Nat :=
  match messageImagePayload part with
  | some (.str s) =>
    if s != "" then
      let isDataUrl := strStartsWith s "data:"
      let isB64 := !isDataUrl && looksLikeRawBase64 s
      if isDataUrl || isB64 then
        match uploadBase64ToS3 env k s (some (messageImageFilename part))
            (if isB64 then some (messageImageMime part) else none) with
        | Except.ok r =>
          let p1 :=
            if truthyField part "image" then part.setField "image" (.str r.url)
            else if truthyField part "data" then
              (part.deleteField "data").setField "url" (.str r.url)
            else part
          let p2 := if truthyField p1 "mimeType" then p1.deleteField "mimeType" else p1
          (p2, k + 1)
        | Except.error _ => (part, k + 1)
      else (part, k)
    else (part, k)
  | _ => (part, k)

/-- Process a file content part (lines 353-378): requires a truthy string
part.data; filename part.filename || part.name || "file", mime
part.mimeType || part.mediaType || "application/octet-stream".  On
success the data property is deleted, a url property added, and a truthy
mimeType property deleted.  On failure the part is unchanged. -/
def processFilePart (env : S3Env) (k : Nat) (part : Json) : Json × Nat :=
  match part.getField? "data" with
  | some (.str s) =>
    if s != "" then
      let isDataUrl := strStartsWith s "data:"
      let isB64 := !isDataUrl && looksLikeRawBase64 s
      if isDataUrl || isB64 then
        match uploadBase64ToS3 env k s (some (messageFileFilename part))
            (if isB64 then some (messageFileMime part) else none) with
        | Except.ok r =>
          let p1 := (part.deleteField "data").setField "url" (.str r.url)
          let p2 := if truthyField p1 "mimeType" then p1.deleteField "mimeType" else p1
          (p2, k + 1)
        | Except.error _ => (part, k + 1)
      else (part, k)
    else (part, k)
  | _ => (part, k)

/-- Process one content part: accessing part.type on a null part is a
TypeError; a part typed "image" or "file" goes to the matching branch
(the two type tests are mutually exclusive); anything else is untouched. -/
def processPart (env : S3Env) (k : Nat) (part : Json) : Option (Json × Nat) :=
  match part with
  | .null => none
  | _ =>
    if isStrEq (part.getField? "type") "image" then
      some (processImagePart env k part)
    else if isStrEq (part.getField? "type") "file" then
      some (processFilePart env k part)
    else some (part, k)

/-- The loop over a content array of one message. -/
def processParts (env : S3Env) (k : Nat) : List Json → Option (List Json × Nat)
  | [] => some ([], k)
  | p :: rest =>
    match processPart env k p with
    | none => none
    | some (p2, k2) =>
      match processParts env k2 rest with
      | none => none
      | some (ps, k3) => some (p2 :: ps, k3)

/-- Process one message: accessing message.content on null is a
TypeError; when the content property is an array its parts are processed,
otherwise the message passes through. -/
def processMessage (env : S3Env) (k : Nat) (msg : Json) : Option (Json × Nat) :=
  match msg with
  | .null => none
  | _ =>
    match msg.getField? "content" with
    | some (.arr parts) =>
      match processParts env k parts with
      | none => none
      | some (ps, k2) => some (msg.setField "content" (.arr ps), k2)
    | _ => some (msg, k)

/-- The loop over the cloned message list. -/
def processMessagesList (env : S3Env) (k : Nat) : List Json → Option (List Json × Nat)
  | [] => some ([], k)
  | m :: rest =>
    match processMessage env k m with
    | none => none
    | some (m2, k2) =>
      match processMessagesList env k2 rest with
      | none => none
      | some (ms, k3) => some (m2 :: ms, k3)

/-- Process messages and replace base64 data with S3 URLs
(processMessagesForBase64): deep-clones the list (the identity at this
value level) and processes each message in order; none is the rejection
caused by a TypeError on a null message or part. -/
def processMessagesForBase64 (env : S3Env) (k : Nat) (messages : List Json) :
    Option (List Json × Nat) :=
  processMessagesList env k messages

/-! ## Upload scheduling (batchPromises and the collection loops)

processToolResultForBase64 (lines 241-289) and processMessagesForBase64
(lines 304-388) first run a synchronous collection loop in which each
uploadable item is handed to an immediately-invoked async function; by
JavaScript semantics that function body runs synchronously up to its
first await, which is inside uploadBase64ToS3 at the s3Client.send call
(line 144) - so the PUT of every discovered item is initiated during the
collection loop, before batchPromises is ever entered.  The single
threaded event loop processes no completion during that synchronous
loop.  batchPromises (lines 33-43) then awaits the already-started
promises in slices of MAX_CONCURRENT_UPLOADS.  The model records this as
an event trace: one start event per item in collection order, followed by
finish events in whatever order the network resolves them. -/

def MAX_CONCURRENT_UPLOADS : Nat := 10

/-- One slice per iteration of the loop of batchPromises, with the
iteration count bounded by the list length (for a positive batch size the
loop runs at most that many times; the source only ever passes ten). -/
def batchSlicesGo (batchSize : Nat) : Nat → List α → List (List α)
  | _, [] => []
  | 0, _ :: _ => []
  | fuel + 1, a :: t =>
    ((a :: t).take batchSize) :: batchSlicesGo batchSize fuel ((a :: t).drop batchSize)

/-- The slices the loop of batchPromises awaits: indices i, i + batchSize,
... over the promise array, each slice of at most batchSize promises. -/
def batchSlices (batchSize : Nat) (promises : List α) : List (List α) :=
  batchSlicesGo batchSize promises.length promises

/-- Start or completion of one upload operation, identified by the index
of its content item. -/
inductive UEvent where
  | start (i : Nat)
  | finish (i : Nat)
deriving DecidableEq, Repr

/-- Number of uploads in flight after a trace: starts minus finishes. -/
def inFlight (tr : List UEvent) : Nat :=
  tr.countP (fun e => match e with | .start _ => true | _ => false) -
    tr.countP (fun e => match e with | .finish _ => true | _ => false)

/-- The maximum number of uploads simultaneously in flight at any instant
of a trace: the maximum of inFlight over all prefixes. -/
def maxInFlight (tr : List UEvent) : Nat :=
  ((List.range (tr.length + 1)).map (fun n => inFlight (tr.take n))).foldr
    Nat.max 0

/-- Indices of the content items the collection loop of
processToolResultForBase64 discovers as uploadable. -/
def contentUploadableIndices (items : List Json) : List Nat :=
  (List.range items.length).filter
    (fun i => match items.get? i with
      | some it => contentItemUploadable it
      | none => false)

/-- The deterministic synchronous prefix of the upload trace of one
processToolResultForBase64 call: every discovered item starts its upload
during the collection loop, in item order, and no completion can be
observed before the loop ends. -/
def toolResultStartPhase (items : List Json) : List UEvent :=
  (contentUploadableIndices items).map UEvent.start

end S3U

namespace McpT

open S3U

/-! ## The ping-aware transport wrapper (src/lib/mcp-transport.ts)

The wrapper registers itself on the underlying transport; its inbound
dispatch (constructor lines 23-32 together with handlePing, lines 35-47)
is a pure function of the received message.  A JSONRPCMessage is an
object; the model records which responses the dispatch hands to the
underlying send and which messages it forwards to the owner-visible
onmessage slot. -/

/-- What one inbound dispatch did: the messages handed to the underlying
transport send (in order) and the messages delivered to the owner's
onmessage callback.  A send failure is routed to the onerror callback and
does not change either list. -/
structure DispatchResult where
  sent : List Json
  delivered : List Json

/-- The response handlePing synthesizes for a ping request carrying the
identifier idv: jsonrpc "2.0", the same identifier, and an empty result. -/
def pingResponse (idv : Json) : Json :=
  .obj [("jsonrpc", .str "2.0"), ("id", idv), ("result", .obj [])]

/-- The inbound dispatch of PingAwareTransportWrapper on a received
message (an object, per the JSONRPCMessage type): a message whose method
property is the string "ping" is swallowed - answered with pingResponse
when an id property is present (whatever its value), answered with
nothing when absent; every other message is forwarded unchanged to the
owner and nothing is sent. -/
def handleInbound (message : List (String × Json)) : DispatchResult :=
  if isStrEq (message.lookup "method") "ping" then
    match message.lookup "id" with
    | some idv => ⟨[pingResponse idv], []⟩
    | none => ⟨[], []⟩
  else ⟨[], [.obj message]⟩

end McpT

namespace HeapM

open S3U

/-! ## A heap model of the offload entry points

The spec asserts that the entry points never modify the object graph the
caller passed in.  That is a statement about references, invisible to the
pure value model, so the three entry points are re-traced here over an
explicit heap: arrays and objects live in addressed cells, primitives are
immediate values, and the JavaScript mutations of s3-utils.ts (delete
item.data, item.url = url, part.image = url, ...) become cell writes.
JSON.parse(JSON.stringify(x)) becomes reading the graph back to a pure
value and allocating a fresh copy.  A fuel parameter bounds dereferencing
depth (none means the model ran out of fuel, or stringify hit a cyclic
graph, on which JSON.stringify itself throws); thrown records the heap at
a TypeError. -/

/-- An immediate JavaScript value: a primitive or a reference to a cell. -/
inductive HVal where
  | null
  | bool (b : Bool)
  | num (n : Int)
  | str (s : String)
  | ref (a : Nat)
deriving DecidableEq, Repr

/-- A heap cell: an array of values or an object of named values. -/
inductive HNode where
  | arr (elems : List HVal)
  | obj (fields : List (String × HVal))
deriving DecidableEq, Repr

/-- The heap: cell number a lives at index a; allocation appends. -/
structure Heap where
  cells : List HNode
deriving DecidableEq, Repr

def Heap.read (h : Heap) (a : Nat) : Option HNode := h.cells.get? a

def Heap.size (h : Heap) : Nat := h.cells.length

def Heap.alloc (h : Heap) (n : HNode) : Heap × Nat :=
  (⟨h.cells ++ [n]⟩, h.cells.length)

def Heap.write (h : Heap) (a : Nat) (n : HNode) : Heap :=
  ⟨h.cells.set a n⟩

/-- Truthiness of an immediate value (references are objects or arrays,
always truthy). -/
def HVal.truthy : HVal → Bool
  | .null => false
  | .bool b => b
  | .num n => n != 0
  | .str s => s != ""
  | .ref _ => true

def truthyOptH : Option HVal → Bool
  | some v => v.truthy
  | none => false

/-- The JavaScript expression a || b over possibly-absent heap values. -/
def jsOrH (a b : Option HVal) : Option HVal :=
  match a with
  | some v => if v.truthy then some v else b
  | none => b

/-- The JavaScript expression a || d with a literal default. -/
def jsOrDH (a : Option HVal) (d : HVal) : HVal :=
  match a with
  | some v => if v.truthy then v else d
  | none => d

def jsOrD2H (a b : Option HVal) (d : HVal) : HVal :=
  jsOrDH a (jsOrDH b d)

/-- Strict equality of a possibly-absent heap value with a string literal. -/
def isStrEqH (v : Option HVal) (s : String) : Bool :=
  match v with
  | some (.str t) => t = s
  | _ => false

def lookupF (fields : List (String × HVal)) (key : String) : Option HVal :=
  fields.lookup key

def truthyFieldH (fields : List (String × HVal)) (key : String) : Bool :=
  truthyOptH (lookupF fields key)

/-- Property deletion on a cell content. -/
def deleteF (fields : List (String × HVal)) (key : String) :
    List (String × HVal) :=
  fields.filter (fun f => f.1 != key)

/-- Property assignment on a cell content: update in place or append. -/
def setF : List (String × HVal) → String → HVal → List (String × HVal)
  | [], key, v => [(key, v)]
  | (k0, v0) :: rest, key, v =>
    if k0 = key then (key, v) :: rest else (k0, v0) :: setF rest key v

/-- Read a value graph back to a pure JSON value (JSON.stringify up to
the parse that follows it); fuel bounds dereferencing depth. -/
def readVal : Nat → Heap → HVal → Option Json
  | _, _, .null => some Json.null
  | _, _, .bool b => some (Json.bool b)
  | _, _, .num n => some (Json.num n)
  | _, _, .str s => some (Json.str s)
  | 0, _, .ref _ => none
  | fuel + 1, h, .ref a =>
    match h.read a with
    | some (.arr elems) => (elems.mapM (fun v => readVal fuel h v)).map Json.arr
    | some (.obj fields) =>
      (fields.mapM (fun kv => (readVal fuel h kv.2).map (fun j => (kv.1, j)))).map
        Json.obj
    | none => none

mutual

/-- Allocate a fresh copy of a pure JSON value in the heap (the parse of
JSON.parse(JSON.stringify(x))): children first, then the owning cell. -/
def allocJson : Json → Heap → Heap × HVal
  | .null, h => (h, .null)
  | .bool b, h => (h, .bool b)
  | .num n, h => (h, .num n)
  | .str s, h => (h, .str s)
  | .arr items, h =>
    let r := allocJsonList items h
    let r2 := r.1.alloc (.arr r.2)
    (r2.1, .ref r2.2)
  | .obj fields, h =>
    let r := allocJsonFields fields h
    let r2 := r.1.alloc (.obj r.2)
    (r2.1, .ref r2.2)

def allocJsonList : List Json → Heap → Heap × List HVal
  | [], h => (h, [])
  | j :: rest, h =>
    let r1 := allocJson j h
    let r2 := allocJsonList rest r1.1
    (r2.1, r1.2 :: r2.2)

def allocJsonFields : List (String × Json) → Heap → Heap × List (String × HVal)
  | [], h => (h, [])
  | (key, j) :: rest, h =>
    let r1 := allocJson j h
    let r2 := allocJsonFields rest r1.1
    (r2.1, (key, r1.2) :: r2.2)

end

/-- Result of a step of heap-level execution: normal completion or a
thrown TypeError, each carrying the heap it left behind. -/
inductive JsStep (α : Type) where
  | ok (h : Heap) (val : α)
  | thrown (h : Heap)

/-- The heap a step left behind. -/
def JsStep.heap : JsStep α → Heap
  | .ok h _ => h
  | .thrown h => h

mutual

/-- The generic walk of replaceBase64InObject over the heap: string
leaves behave as in the pure model; arrays and objects are read through
their references and rebuilt as freshly allocated cells.  The walk never
writes an existing cell. -/
def replaceHB (env : S3Env) (fuel : Nat) (h : Heap) (k : Nat) (v : HVal)
    (filename : Option Json) (mimeType : Option Json) :
    Option (Heap × HVal × Nat) :=
  match v with
  | .str s =>
    if strStartsWith s "data:" && strIncludes s ";base64," then
      match uploadBase64ToS3 env k s filename none with
      | Except.ok r => some (h, .str r.url, k + 1)
      | Except.error _ => some (h, .str s, k + 1)
    else if jsTruthyOpt mimeType && looksLikeRawBase64 s then
      match uploadBase64ToS3 env k s filename mimeType with
      | Except.ok r => some (h, .str r.url, k + 1)
      | Except.error _ => some (h, .str s, k + 1)
    else some (h, .str s, k)
  | .ref a =>
    match fuel with
    | 0 => none
    | fuel2 + 1 =>
      match h.read a with
      | some (.arr elems) =>
        match replaceHBList env fuel2 h k elems filename mimeType with
        | none => none
        | some (h2, vs, k2) =>
          let r := h2.alloc (.arr vs)
          some (r.1, .ref r.2, k2)
      | some (.obj fields) =>
        match replaceHBFields env fuel2 h k (lookupF fields "mimeType") fields
          filename mimeType with
        | none => none
        | some (h2, fs, k2) =>
          let r := h2.alloc (.obj fs)
          some (r.1, .ref r.2, k2)
      | none => none
  | w => some (h, w, k)

/-- The walk over the elements of an array cell. -/
def replaceHBList (env : S3Env) (fuel : Nat) (h : Heap) (k : Nat)
    (elems : List HVal) (filename : Option Json) (mimeType : Option Json) :
    Option (Heap × List HVal × Nat) :=
  match elems with
  | [] => some (h, [], k)
  | x :: rest =>
    match replaceHB env fuel h k x filename mimeType with
    | none => none
    | some (h2, x2, k2) =>
      match replaceHBList env fuel h2 k2 rest filename mimeType with
      | none => none
      | some (h3, xs2, k3) => some (h3, x2 :: xs2, k3)

/-- The walk over the entries of an object cell; at a "data" key whose
parent carries a mimeType property, that property value (read back to a
pure value) becomes the hint. -/
def replaceHBFields (env : S3Env) (fuel : Nat) (h : Heap) (k : Nat)
    (parentMime : Option HVal) (fields : List (String × HVal))
    (filename : Option Json) (mimeType : Option Json) :
    Option (Heap × List (String × HVal) × Nat) :=
  match fields with
  | [] => some (h, [], k)
  | (key, v) :: rest =>
    match
      (match (if key = "data" then parentMime else none) with
       | some pmv =>
         match readVal fuel h pmv with
         | none => none
         | some pmj => some (some pmj)
       | none => some mimeType : Option (Option Json)) with
    | none => none
    | some cm =>
      match replaceHB env fuel h k v filename cm with
      | none => none
      | some (h2, v2, k2) =>
        match replaceHBFields env fuel h2 k2 parentMime rest filename mimeType with
        | none => none
        | some (h3, fs2, k3) => some (h3, (key, v2) :: fs2, k3)

end

/-- The field list an image part cell is overwritten with on a
successful upload (lines 332-342): a truthy image property becomes the
url in place, else a truthy data property is deleted and a url property
appended; then a truthy mimeType property is deleted. -/
def imageSubstFields (fields : List (String × HVal)) (url : String) :
    List (String × HVal) :=
  let fs1 :=
    if truthyFieldH fields "image" then setF fields "image" (.str url)
    else if truthyFieldH fields "data" then
      setF (deleteF fields "data") "url" (.str url)
    else fields
  if truthyFieldH fs1 "mimeType" then deleteF fs1 "mimeType" else fs1

/-- The field list a file part cell is overwritten with on a successful
upload (lines 365-371): data deleted, url appended, truthy mimeType
deleted. -/
def fileSubstFields (fields : List (String × HVal)) (url : String) :
    List (String × HVal) :=
  let fs1 := setF (deleteF fields "data") "url" (.str url)
  if truthyFieldH fs1 "mimeType" then deleteF fs1 "mimeType" else fs1

/-- The field list a tool-result content item cell is overwritten with on
a successful upload (lines 266-267): data deleted, url appended, the
mimeType property kept. -/
def contentItemSubstFields (fields : List (String × HVal)) (url : String) :
    List (String × HVal) :=
  setF (deleteF fields "data") "url" (.str url)

/-- Heap-level image-part processing (lines 316-350): on a successful
upload the part cell at address a is overwritten with the substituted
field list; on a failed upload the heap is unchanged. -/
def processImagePartH (env : S3Env) (fuel : Nat) (h : Heap) (k : Nat) (a : Nat)
    (fields : List (String × HVal)) : Option (Heap × Nat) :=
  match jsOrH (lookupF fields "image") (lookupF fields "data") with
  | some (.str s) =>
    if s != "" then
      if strStartsWith s "data:" ||
          (!strStartsWith s "data:" && looksLikeRawBase64 s) then
        match readVal fuel h (jsOrDH (lookupF fields "filename") (.str "image")),
            readVal fuel h (jsOrDH (lookupF fields "mimeType") (.str "image/jpeg")) with
        | some fnameJ, some mimeJ =>
          match uploadBase64ToS3 env k s (some fnameJ)
              (if !strStartsWith s "data:" && looksLikeRawBase64 s then
                some mimeJ else none) with
          | Except.ok r =>
            some (h.write a (.obj (imageSubstFields fields r.url)), k + 1)
          | Except.error _ => some (h, k + 1)
        | _, _ => none
      else some (h, k)
    else some (h, k)
  | _ => some (h, k)

/-- Heap-level file-part processing (lines 353-378). -/
def processFilePartH (env : S3Env) (fuel : Nat) (h : Heap) (k : Nat) (a : Nat)
    (fields : List (String × HVal)) : Option (Heap × Nat) :=
  match lookupF fields "data" with
  | some (.str s) =>
    if s != "" then
      if strStartsWith s "data:" ||
          (!strStartsWith s "data:" && looksLikeRawBase64 s) then
        match readVal fuel h (jsOrD2H (lookupF fields "filename")
              (lookupF fields "name") (.str "file")),
            readVal fuel h (jsOrD2H (lookupF fields "mimeType")
              (lookupF fields "mediaType") (.str "application/octet-stream")) with
        | some fnameJ, some mimeJ =>
          match uploadBase64ToS3 env k s (some fnameJ)
              (if !strStartsWith s "data:" && looksLikeRawBase64 s then
                some mimeJ else none) with
          | Except.ok r =>
            some (h.write a (.obj (fileSubstFields fields r.url)), k + 1)
          | Except.error _ => some (h, k + 1)
        | _, _ => none
      else some (h, k)
    else some (h, k)
  | _ => some (h, k)

/-- Heap-level processing of one message content part: part.type on null
throws; an object part dispatches on its type; anything else passes. -/
def processPartH (env : S3Env) (fuel : Nat) (h : Heap) (k : Nat) (pv : HVal) :
    Option (JsStep Nat) :=
  match pv with
  | .null => some (.thrown h)
  | .ref a =>
    match h.read a with
    | some (.obj fields) =>
      if isStrEqH (lookupF fields "type") "image" then
        match processImagePartH env fuel h k a fields with
        | none => none
        | some (h2, k2) => some (.ok h2 k2)
      else if isStrEqH (lookupF fields "type") "file" then
        match processFilePartH env fuel h k a fields with
        | none => none
        | some (h2, k2) => some (.ok h2 k2)
      else some (.ok h k)
    | some (.arr _) => some (.ok h k)
    | none => none
  | _ => some (.ok h k)

/-- The loop over the parts of one message content array. -/
def processPartsH (env : S3Env) (fuel : Nat) (h : Heap) (k : Nat) :
    List HVal → Option (JsStep Nat)
  | [] => some (.ok h k)
  | pv :: rest =>
    match processPartH env fuel h k pv with
    | none => none
    | some (.thrown h2) => some (.thrown h2)
    | some (.ok h2 k2) => processPartsH env fuel h2 k2 rest

/-- Heap-level processing of one message: message.content on null
throws; a content property referencing an array has its parts processed. -/
def processMessageH (env : S3Env) (fuel : Nat) (h : Heap) (k : Nat) (mv : HVal) :
    Option (JsStep Nat) :=
  match mv with
  | .null => some (.thrown h)
  | .ref a =>
    match h.read a with
    | some (.obj fields) =>
      match lookupF fields "content" with
      | some (.ref ca) =>
        match h.read ca with
        | some (.arr parts) => processPartsH env fuel h k parts
        | some (.obj _) => some (.ok h k)
        | none => none
      | _ => some (.ok h k)
    | some (.arr _) => some (.ok h k)
    | none => none
  | _ => some (.ok h k)

/-- The loop over the cloned message list. -/
def processMessagesListH (env : S3Env) (fuel : Nat) (h : Heap) (k : Nat) :
    List HVal → Option (JsStep Nat)
  | [] => some (.ok h k)
  | mv :: rest =>
    match processMessageH env fuel h k mv with
    | none => none
    | some (.thrown h2) => some (.thrown h2)
    | some (.ok h2 k2) => processMessagesListH env fuel h2 k2 rest

/-- Heap-level processMessagesForBase64: clone the list (stringify and
re-allocate), then process each cloned message in order.  Indexing the
length of a null clone throws; a non-array clone leaves the loop body
unentered. -/
def processMessagesForBase64H (env : S3Env) (fuel : Nat) (h : Heap) (k : Nat)
    (msgs : HVal) : Option (JsStep (HVal × Nat)) :=
  match readVal fuel h msgs with
  | none => none
  | some j =>
    match (allocJson j h).2 with
    | .null => some (.thrown (allocJson j h).1)
    | .ref a =>
      match (allocJson j h).1.read a with
      | some (.arr msgVals) =>
        match processMessagesListH env fuel (allocJson j h).1 k msgVals with
        | none => none
        | some (.thrown h2) => some (.thrown h2)
        | some (.ok h2 k2) => some (.ok h2 ((allocJson j h).2, k2))
      | some (.obj _) => some (.ok (allocJson j h).1 ((allocJson j h).2, k))
      | none => none
    | _ => some (.ok (allocJson j h).1 ((allocJson j h).2, k))

/-- The mimeType hint of a tool-result content item (line 256): the
mimeType property, else a default depending on the item type. -/
def ciMimeH (fields : List (String × HVal)) : HVal :=
  jsOrDH (lookupF fields "mimeType")
    (if isStrEqH (lookupF fields "type") "image" then .str "image/jpeg"
     else .str "application/octet-stream")

/-- The filename of a tool-result content item (lines 251-255): the
filename property, else the fallback, else a default by item type. -/
def ciFnameH (fields : List (String × HVal)) (fallbackFilename : Option String) :
    HVal :=
  jsOrDH (lookupF fields "filename")
    (match fallbackFilename with
     | some f =>
       if f != "" then .str f
       else if isStrEqH (lookupF fields "type") "image" then .str "screenshot"
       else .str "file"
     | none =>
       if isStrEqH (lookupF fields "type") "image" then .str "screenshot"
       else .str "file")

/-- Heap-level tool-result content item processing (lines 243-281):
item.type on null throws; an uploadable image or file item has its cell
overwritten on success and kept on failure. -/
def processContentItemH (env : S3Env) (fuel : Nat) (h : Heap) (k : Nat)
    (fallbackFilename : Option String) (iv : HVal) : Option (JsStep Nat) :=
  match iv with
  | .null => some (.thrown h)
  | .ref a =>
    match h.read a with
    | some (.obj fields) =>
      if isStrEqH (lookupF fields "type") "image" ||
          isStrEqH (lookupF fields "type") "file" then
        match lookupF fields "data" with
        | some (.str d) =>
          if d != "" then
            if strStartsWith d "data:" ||
                (!strStartsWith d "data:" && looksLikeRawBase64 d) then
              match readVal fuel h (ciFnameH fields fallbackFilename),
                  readVal fuel h (ciMimeH fields) with
              | some fnameJ, some mimeJ =>
                match uploadBase64ToS3 env k d (some fnameJ)
                    (if !strStartsWith d "data:" && looksLikeRawBase64 d then
                      some mimeJ else none) with
                | Except.ok r =>
                  some (.ok
                    (h.write a (.obj (contentItemSubstFields fields r.url)))
                    (k + 1))
                | Except.error _ => some (.ok h (k + 1))
              | _, _ => none
            else some (.ok h k)
          else some (.ok h k)
        | _ => some (.ok h k)
      else some (.ok h k)
    | some (.arr _) => some (.ok h k)
    | none => none
  | _ => some (.ok h k)

/-- The loop over the cloned content items. -/
def processContentListH (env : S3Env) (fuel : Nat) (h : Heap) (k : Nat)
    (fallbackFilename : Option String) : List HVal → Option (JsStep Nat)
  | [] => some (.ok h k)
  | iv :: rest =>
    match processContentItemH env fuel h k fallbackFilename iv with
    | none => none
    | some (.thrown h2) => some (.thrown h2)
    | some (.ok h2 k2) => processContentListH env fuel h2 k2 fallbackFilename rest

/-- The content path of processToolResultForBase64 over the heap: clone
the whole result, then process the cloned content items in place. -/
def toolResultContentPathH (env : S3Env) (fuel : Nat) (h : Heap) (k : Nat)
    (rv : HVal) (filename : Option String) : Option (JsStep (HVal × Nat)) :=
  match readVal fuel h rv with
  | none => none
  | some j =>
    match (allocJson j h).2 with
    | .ref a2 =>
      match (allocJson j h).1.read a2 with
      | some (.obj fields2) =>
        match lookupF fields2 "content" with
        | some (.ref ca2) =>
          match (allocJson j h).1.read ca2 with
          | some (.arr items2) =>
            match processContentListH env fuel (allocJson j h).1 k filename
                items2 with
            | none => none
            | some (.thrown h2) => some (.thrown h2)
            | some (.ok h2 k2) => some (.ok h2 ((allocJson j h).2, k2))
          | _ => none
        | _ => none
      | _ => none
    | _ => none

/-- The generic-walk path of processToolResultForBase64 (line 293): run
replaceBase64InObject on the value itself (no clone; the walk only
allocates fresh cells). -/
def trGenericPathH (env : S3Env) (fuel : Nat) (h : Heap) (k : Nat) (rv : HVal)
    (filename : Option String) : Option (JsStep (HVal × Nat)) :=
  match replaceHB env fuel h k rv (filename.map .str) none with
  | none => none
  | some (h2, v2, k2) => some (.ok h2 (v2, k2))

/-- Heap-level processToolResultForBase64: the guard (an object whose
content property references an array) is tested on the original; the
content path clones and mutates the clone, the other path runs the
allocate-only generic walk on the original value itself. -/
def processToolResultForBase64H (env : S3Env) (fuel : Nat) (h : Heap) (k : Nat)
    (rv : HVal) (filename : Option String) : Option (JsStep (HVal × Nat)) :=
  match rv with
  | .ref a =>
    match h.read a with
    | none => none
    | some (.arr _) => trGenericPathH env fuel h k rv filename
    | some (.obj fields) =>
      match lookupF fields "content" with
      | some (.ref ca) =>
        match h.read ca with
        | none => none
        | some (.arr _) => toolResultContentPathH env fuel h k rv filename
        | some (.obj _) => trGenericPathH env fuel h k rv filename
      | _ => trGenericPathH env fuel h k rv filename
  | _ => trGenericPathH env fuel h k rv filename

/-- The filename read off the cloned tool-call arguments (lines 217-219):
the filename property of an object clone, read back to a pure value. -/
def toolArgsFilenameH (fuel : Nat) (h : Heap) (v : HVal) :
    Option (Option Json) :=
  match
    (match v with
     | .ref a =>
       match h.read a with
       | some (.obj fields) => lookupF fields "filename"
       | _ => none
     | _ => none : Option HVal) with
  | some fv =>
    match readVal fuel h fv with
    | none => none
    | some fj => some (some fj)
  | none => some none

/-- Heap-level processToolCallForBase64: clone the arguments, read the
filename property of the clone when present, then run the generic walk
on the clone. -/
def processToolCallForBase64H (env : S3Env) (fuel : Nat) (h : Heap) (k : Nat)
    (toolName : String) (args : HVal) : Option (JsStep (String × HVal × Nat)) :=
  match readVal fuel h args with
  | none => none
  | some j =>
    match toolArgsFilenameH fuel (allocJson j h).1 (allocJson j h).2 with
    | none => none
    | some fnameJ =>
      match replaceHB env fuel (allocJson j h).1 k (allocJson j h).2 fnameJ
        none with
      | none => none
      | some (h2, v2, k2) => some (.ok h2 (toolName, v2, k2))

end HeapM

/-! # The claims -/

open S3U McpT HeapM

/-- A storage environment in which every upload succeeds: distinct uuids
per attempt and a presigned URL naming the key and expiry. -/
def okEnv : S3Env :=
  ⟨fun i => "uuid" ++ toString i,
   fun key n => "signed:" ++ key ++ ":" ++ toString n,
   fun _ => false, fun _ => false⟩

/-- A storage environment in which exactly the first upload attempt of
the call fails at the PUT. -/
def failFirstEnv : S3Env :=
  ⟨fun i => "uuid" ++ toString i,
   fun key n => "signed:" ++ key ++ ":" ++ toString n,
   fun i => i = 0, fun _ => false⟩

/-- Fifteen independent uploadable image items, mirroring the batching
fixture of s3-utils.test.ts (fifteen content items with data URLs). -/
def fifteenImageItems : List Json :=
  List.replicate 15
    (Json.obj [("type", Json.str "image"),
               ("data", Json.str "data:image/png;base64,iVBORw0KGgo"),
               ("mimeType", Json.str "image/png")])

/-- Every member of a list of naturals is at most the foldr maximum. -/
theorem le_foldr_max (l : List Nat) (x : Nat) (hx : x ∈ l) :
    x ≤ l.foldr Nat.max 0 := by
  induction l with
  | nil => cases hx
  | cons a t ih =>
    rcases List.mem_cons.mp hx with h | h
    · subst h; exact Nat.le_max_left _ _
    · exact Nat.le_trans (ih h) (Nat.le_max_right _ _)

/-- The in-flight count after any prefix bounds maxInFlight from below. -/
theorem inFlight_take_le_maxInFlight (tr : List UEvent) (n : Nat)
    (hn : n ≤ tr.length) : inFlight (tr.take n) ≤ maxInFlight tr := by
  apply le_foldr_max
  exact List.mem_map_of_mem _ (List.mem_range.mpr (by omega))

/-- Claim C1 (evaluated at the failing input): on a tool result holding
fifteen uploadable image items, the collection loop discovers all fifteen
and starts all fifteen uploads synchronously, so whatever order
completions later arrive in, more than MAX_CONCURRENT_UPLOADS uploads are
in flight at the instant the loop ends; the batching of batchPromises
(slices of ten and five) only staggers the awaiting of promises that are
already running.  The model call indeed performs fifteen upload attempts. -/
theorem c1_fifteen_uploads_in_flight :
    contentUploadableIndices fifteenImageItems = List.range 15 ∧
    (∀ completionOrder : List Nat,
      MAX_CONCURRENT_UPLOADS < maxInFlight
        (toolResultStartPhase fifteenImageItems ++
          completionOrder.map UEvent.finish)) ∧
    (batchSlices MAX_CONCURRENT_UPLOADS (List.range 15)).map List.length =
      [10, 5] ∧
    (processToolResultForBase64 okEnv 0
        (Json.obj [("content", Json.arr fifteenImageItems)]) none).map
      (fun r => r.2) = some 15 := by
  refine ⟨by decide, ?_, ?_, by decide⟩
  · intro completionOrder
    have hlen : (toolResultStartPhase fifteenImageItems).length = 15 := by decide
    have htake :
        (toolResultStartPhase fifteenImageItems ++
          completionOrder.map UEvent.finish).take 15 =
        toolResultStartPhase fifteenImageItems := by
      rw [← hlen, List.take_left]
    have hval : inFlight (toolResultStartPhase fifteenImageItems) = 15 := by
      decide
    have hbound :
        inFlight ((toolResultStartPhase fifteenImageItems ++
          completionOrder.map UEvent.finish).take 15) ≤
        maxInFlight (toolResultStartPhase fifteenImageItems ++
          completionOrder.map UEvent.finish) := by
      apply inFlight_take_le_maxInFlight
      rw [List.length_append, hlen]
      omega
    rw [htake, hval] at hbound
    have : MAX_CONCURRENT_UPLOADS = 10 := rfl
    omega
  · decide

/-- Claim C2: an inbound message whose method property is the string
"ping" is absorbed: when it carries an id property the dispatch hands
exactly the response with jsonrpc "2.0", the same id and empty result to
the underlying send, when it carries none nothing is sent, and in both
cases nothing is delivered to the owner's onmessage callback. -/
theorem c2_ping_absorption (message : List (String × Json))
    (hping : message.lookup "method" = some (Json.str "ping")) :
    (∀ idv, message.lookup "id" = some idv →
      handleInbound message =
        ⟨[Json.obj [("jsonrpc", Json.str "2.0"), ("id", idv),
                    ("result", Json.obj [])]], []⟩) ∧
    (message.lookup "id" = none → handleInbound message = ⟨[], []⟩) := by
  constructor
  · intro idv hid
    simp [handleInbound, pingResponse, isStrEq, hping, hid]
  · intro hid
    simp [handleInbound, isStrEq, hping, hid]

/-- Witness for claim C2, at the ping request of spec Scenario C and at a
ping notification. -/
theorem c2_ping_absorption_witness :
    handleInbound [("jsonrpc", Json.str "2.0"), ("id", Json.num 7),
        ("method", Json.str "ping")] =
      ⟨[Json.obj [("jsonrpc", Json.str "2.0"), ("id", Json.num 7),
                  ("result", Json.obj [])]], []⟩ ∧
    handleInbound [("jsonrpc", Json.str "2.0"),
        ("method", Json.str "ping")] = ⟨[], []⟩ :=
  ⟨(c2_ping_absorption [("jsonrpc", Json.str "2.0"), ("id", Json.num 7),
      ("method", Json.str "ping")] rfl).1 (Json.num 7) rfl,
   (c2_ping_absorption [("jsonrpc", Json.str "2.0"),
      ("method", Json.str "ping")] rfl).2 rfl⟩

/-- Claim C8: an inbound message whose method property is not exactly the
string "ping" (absent method included) is delivered unchanged to the
owner's onmessage callback and nothing is sent in response. -/
theorem c8_non_ping_passthrough (message : List (String × Json))
    (h : message.lookup "method" ≠ some (Json.str "ping")) :
    handleInbound message = ⟨[], [Json.obj message]⟩ := by
  have hfalse : isStrEq (message.lookup "method") "ping" = false := by
    cases hm : message.lookup "method" with
    | none => simp [isStrEq]
    | some v =>
      cases v <;> simp [isStrEq]
      rw [hm] at h
      intro he
      exact h (by rw [he])
  simp [handleInbound, hfalse]

/-- Witness for claim C8: a response with no method, a notification with
another method, and a message with a params field named ping all pass
through with nothing sent. -/
theorem c8_non_ping_passthrough_witness :
    handleInbound [("jsonrpc", Json.str "2.0"), ("id", Json.num 3),
        ("result", Json.obj [])] =
      ⟨[], [Json.obj [("jsonrpc", Json.str "2.0"), ("id", Json.num 3),
        ("result", Json.obj [])]]⟩ ∧
    handleInbound [("jsonrpc", Json.str "2.0"),
        ("method", Json.str "notifications/progress")] =
      ⟨[], [Json.obj [("jsonrpc", Json.str "2.0"),
        ("method", Json.str "notifications/progress")]]⟩ ∧
    handleInbound [("jsonrpc", Json.str "2.0"), ("id", Json.num 1),
        ("method", Json.str "tools/call"),
        ("params", Json.obj [("ping", Json.str "ping")])] =
      ⟨[], [Json.obj [("jsonrpc", Json.str "2.0"), ("id", Json.num 1),
        ("method", Json.str "tools/call"),
        ("params", Json.obj [("ping", Json.str "ping")])]]⟩ := by
  refine ⟨c8_non_ping_passthrough _ ?_, c8_non_ping_passthrough _ ?_,
    c8_non_ping_passthrough _ ?_⟩
  · have h : List.lookup "method" [("jsonrpc", Json.str "2.0"),
        ("id", Json.num 3), ("result", Json.obj [])] = none := rfl
    rw [h]; simp
  · have h : List.lookup "method" [("jsonrpc", Json.str "2.0"),
        ("method", Json.str "notifications/progress")] =
        some (Json.str "notifications/progress") := rfl
    rw [h]; simp
  · have h : List.lookup "method" [("jsonrpc", Json.str "2.0"),
        ("id", Json.num 1), ("method", Json.str "tools/call"),
        ("params", Json.obj [("ping", Json.str "ping")])] =
        some (Json.str "tools/call") := rfl
    rw [h]; simp

/-- The filename rule as the spec words it, for comparison with
uploadBase64ToS3: a candidate with a dotted extension is kept, a
candidate without one gains the extension derived from the mime type,
and an absent (or empty, hence falsy) candidate yields file.<ext>. -/
def specFinalFilename (candidate : Option String) (mime : String) : String :=
  match candidate with
  | some c =>
    if c = "" then "file." ++ getExtensionFromMimeType mime
    else if hasFileExtension c then c
    else c ++ "." ++ getExtensionFromMimeType mime
  | none => "file." ++ getExtensionFromMimeType mime

/-- Claim C6: a valid input (a data URI, or raw base64 with an explicit
nonempty MIME type) is stored under uploads/<uuid of this call>/<final
filename> with the filename derived per specFinalFilename, and the
returned URL is the presigned URL of that key with a 7-day expiry; an
input that is neither a parsable data URI nor accompanied by a MIME type
fails with the invalid-input error. -/
theorem c6_upload_contract :
    (∀ (env : S3Env) (k : Nat) (d : String) (pd : DataUrlParts)
        (cand : Option String) (m : Option Json),
      parseDataUrl d = some pd → env.putFails k = false →
      env.presignFails k = false →
      uploadBase64ToS3 env k d (cand.map Json.str) m =
        Except.ok ⟨"uploads/" ++ env.uuid k ++ "/" ++
            specFinalFilename cand pd.mimeType,
          Json.str pd.mimeType,
          env.presign ("uploads/" ++ env.uuid k ++ "/" ++
            specFinalFilename cand pd.mimeType) (3600 * 24 * 7),
          3600 * 24 * 7⟩) ∧
    (∀ (env : S3Env) (k : Nat) (d : String) (mt : String)
        (cand : Option String),
      parseDataUrl d = none → mt ≠ "" → env.putFails k = false →
      env.presignFails k = false →
      uploadBase64ToS3 env k d (cand.map Json.str) (some (Json.str mt)) =
        Except.ok ⟨"uploads/" ++ env.uuid k ++ "/" ++ specFinalFilename cand mt,
          Json.str mt,
          env.presign ("uploads/" ++ env.uuid k ++ "/" ++
            specFinalFilename cand mt) (3600 * 24 * 7),
          3600 * 24 * 7⟩) ∧
    (∀ (env : S3Env) (k : Nat) (d : String) (cand : Option Json),
      parseDataUrl d = none →
      uploadBase64ToS3 env k d cand none = Except.error UploadError.invalidInput) := by
  refine ⟨?_, ?_, ?_⟩
  · intro env k d pd cand m hp hput hpre
    cases cand with
    | none =>
      simp [uploadBase64ToS3, hp, hput, hpre, defaultUploadFilename,
        getExtensionFromMimeTypeJs, specFinalFilename]
    | some c =>
      by_cases hc : c = ""
      · subst hc
        simp [uploadBase64ToS3, hp, hput, hpre, defaultUploadFilename,
          getExtensionFromMimeTypeJs, specFinalFilename, jsTruthy]
      · by_cases hext : hasFileExtension c = true
        · simp [uploadBase64ToS3, hp, hput, hpre, specFinalFilename,
            jsTruthy, hc, hext]
        · simp [uploadBase64ToS3, hp, hput, hpre, specFinalFilename,
            getExtensionFromMimeTypeJs, jsTruthy, hc, hext]
  · intro env k d mt cand hp hmt hput hpre
    cases cand with
    | none =>
      simp [uploadBase64ToS3, hp, hput, hpre, defaultUploadFilename,
        getExtensionFromMimeTypeJs, specFinalFilename, jsTruthy, hmt]
    | some c =>
      by_cases hc : c = ""
      · subst hc
        simp [uploadBase64ToS3, hp, hput, hpre, defaultUploadFilename,
          getExtensionFromMimeTypeJs, specFinalFilename, jsTruthy, hmt]
      · by_cases hext : hasFileExtension c = true
        · simp [uploadBase64ToS3, hp, hput, hpre, specFinalFilename,
            jsTruthy, hmt, hc, hext]
        · simp [uploadBase64ToS3, hp, hput, hpre, specFinalFilename,
            getExtensionFromMimeTypeJs, jsTruthy, hmt, hc, hext]
  · intro env k d cand hp
    simp [uploadBase64ToS3, hp]

/-- Witness for claim C6, at the two storage scenarios of the spec (data
URI with filename shot.png; raw base64 with MIME application/pdf and no
filename) and at an invalid input. -/
theorem c6_upload_contract_witness :
    uploadBase64ToS3 okEnv 0 "data:image/png;base64,iVBORw0KGgo="
        (some (Json.str "shot.png")) none =
      Except.ok ⟨"uploads/uuid0/shot.png", Json.str "image/png",
        "signed:uploads/uuid0/shot.png:604800", 604800⟩ ∧
    uploadBase64ToS3 okEnv 0 "JVBERi0" none (some (Json.str "application/pdf")) =
      Except.ok ⟨"uploads/uuid0/file.pdf", Json.str "application/pdf",
        "signed:uploads/uuid0/file.pdf:604800", 604800⟩ ∧
    uploadBase64ToS3 okEnv 0 "JVBERi0" none none =
      Except.error UploadError.invalidInput :=
  ⟨c6_upload_contract.1 okEnv 0 "data:image/png;base64,iVBORw0KGgo="
      ⟨"image/png", "iVBORw0KGgo="⟩ (some "shot.png") none rfl rfl rfl,
   c6_upload_contract.2.1 okEnv 0 "JVBERi0" "application/pdf" none rfl
      (by decide) rfl rfl,
   c6_upload_contract.2.2 okEnv 0 "JVBERi0" none rfl⟩

/-- The raw-base64 condition as the claim words it: every one of the
first 100 characters belongs to the base64 alphabet A-Z, a-z, 0-9, +, /,
together with the equals sign. -/
def specFirst100Base64Alphabet (s : String) : Bool :=
  (s.data.take 100).all (fun c => isBase64Char c || c = '=')

/-- Counterexample to claim C7: the one-character string "=" has all of
its first 100 characters in the base64 alphabet and a MIME hint is
available, so the claim says it is treated as raw base64 and uploaded;
but the regex of the code requires a nonempty run of non-equals alphabet
characters first, so the walk passes it through unchanged with no upload
attempted (the counter stays 0). -/
theorem c7_counterexample :
    specFirst100Base64Alphabet "=" = true ∧
    jsTruthy (Json.str "image/png") = true ∧
    strStartsWith "=" "data:" = false ∧
    replaceBase64InObject okEnv (Json.str "=") none
      (some (Json.str "image/png")) 0 = (Json.str "=", 0) :=
  ⟨by decide, by decide, by decide, rfl⟩

/-- Claim C7 as amended: a string leaf without the data: prefix is
treated as raw base64 (exactly one upload attempted, consuming one
attempt index) if and only if the mime hint from context is truthy and
the first 100 characters consist of a nonempty run of characters from
A-Z, a-z, 0-9, +, / followed only by equals signs; otherwise the leaf
passes through unchanged; and when it is treated as raw base64 the leaf
becomes the uploaded URL on success and stays unchanged on failure. -/
theorem c7_raw_base64_heuristic (env : S3Env) (s : String)
    (filename : Option Json) (mimeType : Option Json) (k : Nat)
    (hnd : strStartsWith s "data:" = false) :
    ((replaceBase64InObject env (Json.str s) filename mimeType k).2 = k + 1 ↔
      (jsTruthyOpt mimeType && looksLikeRawBase64 s) = true) ∧
    ((jsTruthyOpt mimeType && looksLikeRawBase64 s) = false →
      replaceBase64InObject env (Json.str s) filename mimeType k =
        (Json.str s, k)) ∧
    ((jsTruthyOpt mimeType && looksLikeRawBase64 s) = true →
      replaceBase64InObject env (Json.str s) filename mimeType k =
        (match uploadBase64ToS3 env k s filename mimeType with
         | Except.ok r => (Json.str r.url, k + 1)
         | Except.error _ => (Json.str s, k + 1))) := by
  by_cases hb : (jsTruthyOpt mimeType && looksLikeRawBase64 s) = true
  · have heq : replaceBase64InObject env (Json.str s) filename mimeType k =
        (match uploadBase64ToS3 env k s filename mimeType with
         | Except.ok r => (Json.str r.url, k + 1)
         | Except.error _ => (Json.str s, k + 1)) := by
      simp [replaceBase64InObject, hnd, hb]
    refine ⟨?_, ?_, fun _ => heq⟩
    · rw [heq]
      cases uploadBase64ToS3 env k s filename mimeType <;> simp [hb]
    · intro h
      rw [h] at hb
      cases hb
  · have hb2 : (jsTruthyOpt mimeType && looksLikeRawBase64 s) = false :=
      Bool.eq_false_iff.mpr hb
    have heq : replaceBase64InObject env (Json.str s) filename mimeType k =
        (Json.str s, k) := by
      simp [replaceBase64InObject, hnd, hb2]
    refine ⟨?_, fun _ => heq, ?_⟩
    · rw [heq]
      simp [hb2]
    · intro h
      rw [h] at hb2
      cases hb2

/-- Witness for claim C7: a plausible raw base64 string with an available
image/png hint is uploaded (one attempt), and without any hint it passes
through unchanged. -/
theorem c7_raw_base64_heuristic_witness :
    ((replaceBase64InObject okEnv (Json.str "iVBORw0KGgo") none
        (some (Json.str "image/png")) 0).2 = 0 + 1 ↔
      (jsTruthyOpt (some (Json.str "image/png")) &&
        looksLikeRawBase64 "iVBORw0KGgo") = true) ∧
    ((jsTruthyOpt (none : Option Json) && looksLikeRawBase64 "iVBORw0KGgo") = false →
      replaceBase64InObject okEnv (Json.str "iVBORw0KGgo") none none 0 =
        (Json.str "iVBORw0KGgo", 0)) :=
  ⟨(c7_raw_base64_heuristic okEnv "iVBORw0KGgo" none
      (some (Json.str "image/png")) 0 (by decide)).1,
   (c7_raw_base64_heuristic okEnv "iVBORw0KGgo" none none 0 (by decide)).2.1⟩

/-- Whether an image part triggers an upload in the message path: the
guards of lines 316-324 of s3-utils.ts. -/
def partTriggersImageUpload (part : Json) : Bool :=
  isStrEq (part.getField? "type") "image" &&
  (match messageImagePayload part with
   | some (.str s) =>
     s != "" && (strStartsWith s "data:" ||
       (!strStartsWith s "data:" && looksLikeRawBase64 s))
   | _ => false)

/-- Whether a file part triggers an upload: the guards of lines 353-358. -/
def partTriggersFileUpload (part : Json) : Bool :=
  isStrEq (part.getField? "type") "file" &&
  (match part.getField? "data" with
   | some (.str s) =>
     s != "" && (strStartsWith s "data:" ||
       (!strStartsWith s "data:" && looksLikeRawBase64 s))
   | _ => false)

def partTriggersUpload (part : Json) : Bool :=
  partTriggersImageUpload part || partTriggersFileUpload part

/-- The premise of claim C5 as worded: no content part of the message
carries a base64 payload (one whose image or data field is a data URI or
passes the raw-base64 heuristic). -/
def messageHasNoBase64Payload (m : Json) : Bool :=
  match m.getField? "content" with
  | some (.arr parts) => parts.all (fun p => !partTriggersUpload p)
  | _ => true

/-- A message the loop traverses without throwing and without uploading:
non-null, and when its content is an array, every part is non-null and
triggers no upload. -/
def messageCleanForOffload (m : Json) : Bool :=
  match m with
  | .null => false
  | _ =>
    match m.getField? "content" with
    | some (.arr parts) =>
      parts.all (fun p =>
        match p with
        | .null => false
        | _ => !partTriggersUpload p)
    | _ => true

/-- Writing back the value a key already holds leaves the field list
unchanged. -/
theorem setFieldList_lookup_self (l : List (String × Json)) (key : String)
    (v : Json) (h : l.lookup key = some v) : setFieldList l key v = l := by
  induction l with
  | nil => simp [List.lookup] at h
  | cons kv rest ih =>
    obtain ⟨k0, v0⟩ := kv
    by_cases hk : key = k0
    · subst hk
      simp [List.lookup] at h
      simp [setFieldList, h]
    · have hk2 : (key == k0) = false := by
        simp [hk]
      simp [List.lookup, hk2] at h
      have hk3 : ¬ k0 = key := fun he => hk he.symm
      simp [setFieldList, hk3, ih h]

/-- An image part that triggers no upload is returned unchanged with the
counter untouched. -/
theorem processImagePart_clean (env : S3Env) (k : Nat) (p : Json)
    (himg : partTriggersImageUpload p = false)
    (hty : isStrEq (p.getField? "type") "image" = true) :
    processImagePart env k p = (p, k) := by
  unfold processImagePart
  cases hpay : messageImagePayload p with
  | none => simp
  | some v =>
    cases v <;> simp
    case str s =>
      intro hs hcond
      exfalso
      have himg2 : (s != "" && (strStartsWith s "data:" ||
          (!strStartsWith s "data:" && looksLikeRawBase64 s))) = false := by
        have h0 := himg
        unfold partTriggersImageUpload at h0
        rw [hty, hpay] at h0
        simpa using h0
      have hsne : (s != "") = true := by simp [hs]
      rw [hsne, Bool.true_and] at himg2
      rcases hcond with hc | ⟨hc1, hc2⟩
      · rw [hc] at himg2
        simp at himg2
      · rw [hc1, hc2] at himg2
        simp at himg2

/-- A file part that triggers no upload is returned unchanged with the
counter untouched. -/
theorem processFilePart_clean (env : S3Env) (k : Nat) (p : Json)
    (hfile : partTriggersFileUpload p = false)
    (hty : isStrEq (p.getField? "type") "file" = true) :
    processFilePart env k p = (p, k) := by
  unfold processFilePart
  cases hd : p.getField? "data" with
  | none => simp
  | some v =>
    cases v <;> simp
    case str s =>
      intro hs hcond
      exfalso
      have hfile2 : (s != "" && (strStartsWith s "data:" ||
          (!strStartsWith s "data:" && looksLikeRawBase64 s))) = false := by
        have h0 := hfile
        unfold partTriggersFileUpload at h0
        rw [hty, hd] at h0
        simpa using h0
      have hsne : (s != "") = true := by simp [hs]
      rw [hsne, Bool.true_and] at hfile2
      rcases hcond with hc | ⟨hc1, hc2⟩
      · rw [hc] at hfile2
        simp at hfile2
      · rw [hc1, hc2] at hfile2
        simp at hfile2

/-- A non-null part that triggers no upload passes through unchanged. -/
theorem processPart_clean (env : S3Env) (k : Nat) (p : Json)
    (hp : p ≠ Json.null) (ht : partTriggersUpload p = false) :
    processPart env k p = some (p, k) := by
  have himg : partTriggersImageUpload p = false := by
    unfold partTriggersUpload at ht
    exact (Bool.or_eq_false_iff.mp ht).1
  have hfile : partTriggersFileUpload p = false := by
    unfold partTriggersUpload at ht
    exact (Bool.or_eq_false_iff.mp ht).2
  by_cases hi : isStrEq (p.getField? "type") "image" = true
  · have : processPart env k p = some (processImagePart env k p) := by
      cases p <;> simp [processPart, hi] at hp ⊢
    rw [this, processImagePart_clean env k p himg hi]
  · by_cases hf : isStrEq (p.getField? "type") "file" = true
    · have : processPart env k p = some (processFilePart env k p) := by
        cases p <;> simp [processPart, hi, hf] at hp ⊢
      rw [this, processFilePart_clean env k p hfile hf]
    · cases p <;> simp [processPart, hi, hf] at hp ⊢

/-- A list of clean parts passes through unchanged with no uploads. -/
theorem processParts_clean (env : S3Env) (parts : List Json)
    (h : ∀ p ∈ parts, p ≠ Json.null ∧ partTriggersUpload p = false) :
    ∀ k, processParts env k parts = some (parts, k) := by
  induction parts with
  | nil => intro k; rfl
  | cons p rest ih =>
    intro k
    have hp := h p (List.mem_cons_self p rest)
    have hrest : ∀ q ∈ rest, q ≠ Json.null ∧ partTriggersUpload q = false :=
      fun q hq => h q (List.mem_cons_of_mem p hq)
    simp [processParts, processPart_clean env k p hp.1 hp.2, ih hrest k]

/-- A clean message passes through unchanged with no uploads. -/
theorem processMessage_clean (env : S3Env) (k : Nat) (m : Json)
    (hm : messageCleanForOffload m = true) :
    processMessage env k m = some (m, k) := by
  cases m with
  | null => simp [messageCleanForOffload] at hm
  | bool b => rfl
  | num n => rfl
  | str s => rfl
  | arr items => rfl
  | obj fields =>
    cases hc : fields.lookup "content" with
    | none => simp [processMessage, Json.getField?, hc]
    | some cv =>
      cases cv with
      | arr parts =>
        have hparts : ∀ p ∈ parts, p ≠ Json.null ∧ partTriggersUpload p = false := by
          intro p hp
          unfold messageCleanForOffload at hm
          simp only [Json.getField?] at hm
          rw [hc] at hm
          have hall := (List.all_eq_true.mp hm) p hp
          constructor
          · intro he
            subst he
            simp at hall
          · cases p <;> simp at hall ⊢ <;> exact hall
        simp only [processMessage, Json.getField?, hc,
          processParts_clean env parts hparts k]
        simp [Json.setField, setFieldList_lookup_self fields "content"
          (Json.arr parts) hc]
      | null => simp [processMessage, Json.getField?, hc]
      | bool b => simp [processMessage, Json.getField?, hc]
      | num n => simp [processMessage, Json.getField?, hc]
      | str s => simp [processMessage, Json.getField?, hc]
      | obj fs => simp [processMessage, Json.getField?, hc]

/-- A list of clean messages passes through unchanged with no uploads. -/
theorem processMessagesList_clean (env : S3Env) (messages : List Json)
    (h : ∀ m ∈ messages, messageCleanForOffload m = true) :
    ∀ k, processMessagesList env k messages = some (messages, k) := by
  induction messages with
  | nil => intro k; rfl
  | cons m rest ih =>
    intro k
    have hm := h m (List.mem_cons_self m rest)
    have hrest := fun q hq => h q (List.mem_cons_of_mem m hq)
    simp [processMessagesList, processMessage_clean env k m hm, ih hrest k]

/-- Counterexample to claim C5: the one-message list [null] contains no
base64 payload (it has no parts at all), yet the call does not return a
value deep-equal to its input - reading null.content throws a TypeError
and the promise rejects. -/
theorem c5_counterexample :
    ([Json.null].all (fun m => messageHasNoBase64Payload m)) = true ∧
    processMessagesForBase64 okEnv 0 [Json.null] = none :=
  ⟨by decide, rfl⟩

/-- Claim C5 as amended: a message list whose messages are non-null,
whose content parts are non-null, and which contains no base64 payload
(no part whose image or data field is a data URI or passes the raw-base64
heuristic) is returned unchanged with zero upload attempts; the empty
list is such a list. -/
theorem c5_clean_input_identity (env : S3Env) (k : Nat) (messages : List Json)
    (h : ∀ m ∈ messages, messageCleanForOffload m = true) :
    processMessagesForBase64 env k messages = some (messages, k) :=
  processMessagesList_clean env messages h k

/-- Witness for claim C5: a nonempty clean message list (a text message
with a text part and a part carrying a non-base64 data string) and the
empty list both pass through with zero uploads. -/
theorem c5_clean_input_identity_witness :
    processMessagesForBase64 okEnv 0
      [Json.obj [("role", Json.str "user"),
        ("content", Json.arr [
          Json.obj [("type", Json.str "text"), ("text", Json.str "hello")],
          Json.obj [("type", Json.str "file"),
            ("data", Json.str "not base64!")]])],
       Json.obj [("role", Json.str "assistant"), ("content", Json.str "hi")]] =
      some ([Json.obj [("role", Json.str "user"),
        ("content", Json.arr [
          Json.obj [("type", Json.str "text"), ("text", Json.str "hello")],
          Json.obj [("type", Json.str "file"),
            ("data", Json.str "not base64!")]])],
       Json.obj [("role", Json.str "assistant"), ("content", Json.str "hi")]], 0) ∧
    processMessagesForBase64 okEnv 0 [] = some ([], 0) :=
  ⟨c5_clean_input_identity okEnv 0 _ (by decide),
   c5_clean_input_identity okEnv 0 [] (by decide)⟩

/-- Disequal strings compare false under boolean equality. -/
theorem str_beq_false {a b : String} (h : ¬ a = b) : (a == b) = false := by
  simp [h]

/-- Deleting a key removes it from lookup. -/
theorem lookup_filterNe_self (l : List (String × Json)) (key : String) :
    (l.filter (fun f => f.1 != key)).lookup key = none := by
  induction l with
  | nil => rfl
  | cons kv rest ih =>
    obtain ⟨k0, v0⟩ := kv
    by_cases h0 : k0 = key
    · subst h0
      simpa [List.filter_cons] using ih
    · have h1 : ¬ key = k0 := fun he => h0 he.symm
      have hb : (k0 != key) = true := by simp [h0]
      simpa [List.filter_cons, hb, List.lookup_cons, str_beq_false h1] using ih

/-- Deleting one key leaves the lookup of any other key unchanged. -/
theorem lookup_filterNe_other (l : List (String × Json)) (key key2 : String)
    (h : key2 ≠ key) :
    (l.filter (fun f => f.1 != key)).lookup key2 = l.lookup key2 := by
  induction l with
  | nil => rfl
  | cons kv rest ih =>
    obtain ⟨k0, v0⟩ := kv
    by_cases h0 : k0 = key
    · subst h0
      have h1 : ¬ key2 = k0 := h
      simp [List.filter_cons, List.lookup_cons, str_beq_false h1, ih]
    · have hb : (k0 != key) = true := by simp [h0]
      by_cases h2 : key2 = k0
      · subst h2
        simp [List.filter_cons, hb, List.lookup_cons]
      · simp [List.filter_cons, hb, List.lookup_cons, str_beq_false h2, ih]

/-- Assigning a key makes its lookup the assigned value. -/
theorem lookup_setFieldList_self (l : List (String × Json)) (key : String)
    (v : Json) : (setFieldList l key v).lookup key = some v := by
  induction l with
  | nil => simp [setFieldList, List.lookup_cons]
  | cons kv rest ih =>
    obtain ⟨k0, v0⟩ := kv
    by_cases h0 : k0 = key
    · subst h0
      simp [setFieldList, List.lookup_cons]
    · have h1 : ¬ key = k0 := fun he => h0 he.symm
      simp [setFieldList, h0, List.lookup_cons, str_beq_false h1, ih]

/-- Assigning one key leaves the lookup of any other key unchanged. -/
theorem lookup_setFieldList_other (l : List (String × Json)) (key key2 : String)
    (v : Json) (h : key2 ≠ key) :
    (setFieldList l key v).lookup key2 = l.lookup key2 := by
  induction l with
  | nil => simp [setFieldList, List.lookup_cons, str_beq_false h]
  | cons kv rest ih =>
    obtain ⟨k0, v0⟩ := kv
    by_cases h0 : k0 = key
    · subst h0
      have h1 : ¬ key2 = k0 := h
      simp [setFieldList, List.lookup_cons, str_beq_false h1]
    · by_cases h2 : key2 = k0
      · subst h2
        simp [setFieldList, h0, List.lookup_cons]
      · simp [setFieldList, h0, List.lookup_cons, str_beq_false h2, ih]

/-- Claim C9: a tool-result content item of kind image or file whose
base64 data is successfully uploaded has its data property removed and a
url property added while its mimeType property is left exactly as it was
(the deletion is commented out in the source); by contrast the
message-list file path deletes a truthy mimeType property from the
substituted part. -/
theorem c9_mimeType_retention :
    (∀ (env : S3Env) (k : Nat) (fb : Option String) (item : Json) (d : String)
        (r : UploadRecord),
      contentItemUploadable item = true →
      item.getField? "data" = some (Json.str d) →
      uploadBase64ToS3 env k d (some (toolItemFilename item fb))
          (if (!strStartsWith d "data:" && looksLikeRawBase64 d) then
            some (toolItemMime item) else none) = Except.ok r →
      processContentItem env k fb item =
        some ((item.deleteField "data").setField "url" (Json.str r.url), k + 1) ∧
      ((item.deleteField "data").setField "url" (Json.str r.url)).getField?
          "mimeType" = item.getField? "mimeType" ∧
      ((item.deleteField "data").setField "url" (Json.str r.url)).getField?
          "data" = none ∧
      ((item.deleteField "data").setField "url" (Json.str r.url)).getField?
          "url" = some (Json.str r.url)) ∧
    (∀ (env : S3Env) (k : Nat) (part : Json) (s : String) (r : UploadRecord),
      isStrEq (part.getField? "type") "file" = true →
      part.getField? "data" = some (Json.str s) → s ≠ "" →
      (strStartsWith s "data:" ||
        (!strStartsWith s "data:" && looksLikeRawBase64 s)) = true →
      truthyField part "mimeType" = true →
      uploadBase64ToS3 env k s (some (messageFileFilename part))
          (if (!strStartsWith s "data:" && looksLikeRawBase64 s) then
            some (messageFileMime part) else none) = Except.ok r →
      (processFilePart env k part).1.getField? "mimeType" = none ∧
      (processFilePart env k part).2 = k + 1) := by
  constructor
  · intro env k fb item d r hup hd hok
    obtain ⟨fields, rfl⟩ : ∃ fields, item = Json.obj fields := by
      cases item <;> simp [Json.getField?] at hd
      exact ⟨_, rfl⟩
    have hup2 := hup
    unfold contentItemUploadable at hup2
    rw [hd] at hup2
    obtain ⟨htype, hdata⟩ := Bool.and_eq_true_iff.mp hup2
    obtain ⟨hdne, hcond⟩ := Bool.and_eq_true_iff.mp hdata
    refine ⟨?_, ?_, ?_, ?_⟩
    · simp only [processContentItem, hd, htype, hdne, hcond, hok]
      simp [hd, htype, hdne, hcond, hok]
    · simp [Json.deleteField, Json.setField, Json.getField?,
        lookup_setFieldList_other _ "url" "mimeType" _ (by decide),
        lookup_filterNe_other _ "data" "mimeType" (by decide)]
    · simp [Json.deleteField, Json.setField, Json.getField?,
        lookup_setFieldList_other _ "url" "data" _ (by decide),
        lookup_filterNe_self]
    · simp [Json.deleteField, Json.setField, Json.getField?,
        lookup_setFieldList_self]
  · intro env k part s r hty hd hs hcond hmt hok
    obtain ⟨fields, rfl⟩ : ∃ fields, part = Json.obj fields := by
      cases part <;> simp [Json.getField?] at hd
      exact ⟨_, rfl⟩
    have hs2 : (s != "") = true := by simp [hs]
    have step : processFilePart env k (Json.obj fields) =
        ((if truthyField (((Json.obj fields).deleteField "data").setField "url"
            (Json.str r.url)) "mimeType" = true then
          (((Json.obj fields).deleteField "data").setField "url"
            (Json.str r.url)).deleteField "mimeType"
        else ((Json.obj fields).deleteField "data").setField "url"
            (Json.str r.url)), k + 1) := by
      simp only [processFilePart, hd, hs2, hcond, hok]
      simp [hd, hs2, hcond, hok]
    have hmt2 : truthyField (((Json.obj fields).deleteField "data").setField
        "url" (Json.str r.url)) "mimeType" = true := by
      unfold truthyField at hmt ⊢
      simp only [Json.deleteField, Json.setField, Json.getField?,
        lookup_setFieldList_other _ "url" "mimeType" _ (by decide),
        lookup_filterNe_other _ "data" "mimeType" (by decide)]
      simpa [Json.getField?] using hmt
    rw [step, if_pos hmt2]
    constructor
    · simp [Json.deleteField, Json.setField, Json.getField?,
        lookup_filterNe_self]
    · rfl

/-- Witness for claim C9: a concrete image tool-result item keeps its
mimeType while gaining a url, and a concrete message file part loses its
mimeType. -/
theorem c9_mimeType_retention_witness :
    processContentItem okEnv 0 none
        (Json.obj [("type", Json.str "image"),
          ("data", Json.str "data:image/png;base64,AA"),
          ("mimeType", Json.str "image/png")]) =
      some (((Json.obj [("type", Json.str "image"),
          ("data", Json.str "data:image/png;base64,AA"),
          ("mimeType", Json.str "image/png")]).deleteField "data").setField
            "url" (Json.str "signed:uploads/uuid0/screenshot.png:604800"), 1) ∧
    (processFilePart okEnv 0
        (Json.obj [("type", Json.str "file"),
          ("data", Json.str "data:application/pdf;base64,JV"),
          ("mimeType", Json.str "application/pdf")])).1.getField? "mimeType" =
      none :=
  ⟨(c9_mimeType_retention.1 okEnv 0 none
      (Json.obj [("type", Json.str "image"),
        ("data", Json.str "data:image/png;base64,AA"),
        ("mimeType", Json.str "image/png")]) "data:image/png;base64,AA"
      ⟨"uploads/uuid0/screenshot.png", Json.str "image/png",
        "signed:uploads/uuid0/screenshot.png:604800", 604800⟩
      (by decide) rfl rfl).1,
   (c9_mimeType_retention.2 okEnv 0
      (Json.obj [("type", Json.str "file"),
        ("data", Json.str "data:application/pdf;base64,JV"),
        ("mimeType", Json.str "application/pdf")]) "data:application/pdf;base64,JV"
      ⟨"uploads/uuid0/file.pdf", Json.str "application/pdf",
        "signed:uploads/uuid0/file.pdf:604800", 604800⟩
      rfl rfl (by decide) (by decide) (by decide) rfl).1⟩

/-- Claim C10: in the message path, an image part carrying a truthy
string image property (alongside a data property) has the image property
itself uploaded and overwritten with the URL in place, the data property
untouched and no url property added; a url property is added (and data
deleted) exactly on the path where the payload came from the data
property alone (image absent or falsy). -/
theorem c10_image_property_precedence :
    (∀ (env : S3Env) (k : Nat) (part : Json) (s : String) (dv : Json)
        (r : UploadRecord),
      part.getField? "image" = some (Json.str s) → s ≠ "" →
      part.getField? "data" = some dv →
      (strStartsWith s "data:" ||
        (!strStartsWith s "data:" && looksLikeRawBase64 s)) = true →
      uploadBase64ToS3 env k s (some (messageImageFilename part))
          (if (!strStartsWith s "data:" && looksLikeRawBase64 s) then
            some (messageImageMime part) else none) = Except.ok r →
      (processImagePart env k part).2 = k + 1 ∧
      (processImagePart env k part).1.getField? "image" =
        some (Json.str r.url) ∧
      (processImagePart env k part).1.getField? "data" =
        part.getField? "data" ∧
      (processImagePart env k part).1.getField? "url" =
        part.getField? "url") ∧
    (∀ (env : S3Env) (k : Nat) (part : Json) (s : String) (r : UploadRecord),
      truthyField part "image" = false →
      part.getField? "data" = some (Json.str s) → s ≠ "" →
      (strStartsWith s "data:" ||
        (!strStartsWith s "data:" && looksLikeRawBase64 s)) = true →
      uploadBase64ToS3 env k s (some (messageImageFilename part))
          (if (!strStartsWith s "data:" && looksLikeRawBase64 s) then
            some (messageImageMime part) else none) = Except.ok r →
      (processImagePart env k part).2 = k + 1 ∧
      (processImagePart env k part).1.getField? "data" = none ∧
      (processImagePart env k part).1.getField? "url" =
        some (Json.str r.url)) := by
  constructor
  · intro env k part s dv r himg hs hdv hcond hok
    obtain ⟨fields, rfl⟩ : ∃ fields, part = Json.obj fields := by
      cases part <;> simp [Json.getField?] at himg
      exact ⟨_, rfl⟩
    have hs2 : (s != "") = true := by simp [hs]
    have hpay : messageImagePayload (Json.obj fields) = some (Json.str s) := by
      simp [messageImagePayload, jsOr, himg, jsTruthy, hs2]
    have htr : truthyField (Json.obj fields) "image" = true := by
      simp [truthyField, jsTruthyOpt, himg, jsTruthy, hs2]
    have step : processImagePart env k (Json.obj fields) =
        ((if truthyField ((Json.obj fields).setField "image" (Json.str r.url))
            "mimeType" = true then
          ((Json.obj fields).setField "image" (Json.str r.url)).deleteField
            "mimeType"
         else (Json.obj fields).setField "image" (Json.str r.url)), k + 1) := by
      simp only [processImagePart, hpay, hs2, hcond, hok, htr]
      simp [hpay, hs2, hcond, hok, htr]
    rw [step]
    by_cases hm : truthyField ((Json.obj fields).setField "image"
        (Json.str r.url)) "mimeType" = true
    · rw [if_pos hm]
      refine ⟨rfl, ?_, ?_, ?_⟩
      · simp [Json.deleteField, Json.setField, Json.getField?,
          lookup_filterNe_other _ "mimeType" "image" (by decide),
          lookup_setFieldList_self]
      · simp [Json.deleteField, Json.setField, Json.getField?,
          lookup_filterNe_other _ "mimeType" "data" (by decide),
          lookup_setFieldList_other _ "image" "data" _ (by decide)]
      · simp [Json.deleteField, Json.setField, Json.getField?,
          lookup_filterNe_other _ "mimeType" "url" (by decide),
          lookup_setFieldList_other _ "image" "url" _ (by decide)]
    · rw [if_neg hm]
      refine ⟨rfl, ?_, ?_, ?_⟩
      · simp [Json.setField, Json.getField?, lookup_setFieldList_self]
      · simp [Json.setField, Json.getField?,
          lookup_setFieldList_other _ "image" "data" _ (by decide)]
      · simp [Json.setField, Json.getField?,
          lookup_setFieldList_other _ "image" "url" _ (by decide)]
  · intro env k part s r himg hd hs hcond hok
    obtain ⟨fields, rfl⟩ : ∃ fields, part = Json.obj fields := by
      cases part <;> simp [Json.getField?] at hd
      exact ⟨_, rfl⟩
    have hs2 : (s != "") = true := by simp [hs]
    have hpay : messageImagePayload (Json.obj fields) = some (Json.str s) := by
      unfold messageImagePayload jsOr
      unfold truthyField jsTruthyOpt at himg
      cases hi : (Json.obj fields).getField? "image" with
      | none => simpa [hi] using hd
      | some v =>
        rw [hi] at himg
        simp only [jsTruthyOpt] at himg
        simp [himg, hd]
    have htrdata : truthyField (Json.obj fields) "data" = true := by
      simp [truthyField, jsTruthyOpt, hd, jsTruthy, hs2]
    have step : processImagePart env k (Json.obj fields) =
        ((if truthyField (((Json.obj fields).deleteField "data").setField "url"
            (Json.str r.url)) "mimeType" = true then
          (((Json.obj fields).deleteField "data").setField "url"
            (Json.str r.url)).deleteField "mimeType"
         else ((Json.obj fields).deleteField "data").setField "url"
            (Json.str r.url)), k + 1) := by
      simp only [processImagePart, hpay, hs2, hcond, hok, himg, htrdata]
      simp [hpay, hs2, hcond, hok, himg, htrdata]
    rw [step]
    by_cases hm : truthyField (((Json.obj fields).deleteField "data").setField
        "url" (Json.str r.url)) "mimeType" = true
    · rw [if_pos hm]
      refine ⟨rfl, ?_, ?_⟩
      · simp [Json.deleteField, Json.setField, Json.getField?,
          lookup_filterNe_other _ "mimeType" "data" (by decide),
          lookup_setFieldList_other _ "url" "data" _ (by decide),
          lookup_filterNe_self]
      · simp [Json.deleteField, Json.setField, Json.getField?,
          lookup_filterNe_other _ "mimeType" "url" (by decide),
          lookup_setFieldList_self]
    · rw [if_neg hm]
      refine ⟨rfl, ?_, ?_⟩
      · simp [Json.deleteField, Json.setField, Json.getField?,
          lookup_setFieldList_other _ "url" "data" _ (by decide),
          lookup_filterNe_self]
      · simp [Json.deleteField, Json.setField, Json.getField?,
          lookup_setFieldList_self]

/-- Witness for claim C10: a part with both image and data properties has
its image value uploaded and replaced in place with data untouched, and a
part with only a data property loses data and gains url. -/
theorem c10_image_property_precedence_witness :
    ((processImagePart okEnv 0
        (Json.obj [("type", Json.str "image"),
          ("image", Json.str "data:image/png;base64,AA"),
          ("data", Json.str "keepme")])).1.getField? "image" =
      some (Json.str "signed:uploads/uuid0/image.png:604800") ∧
     (processImagePart okEnv 0
        (Json.obj [("type", Json.str "image"),
          ("image", Json.str "data:image/png;base64,AA"),
          ("data", Json.str "keepme")])).1.getField? "data" =
      some (Json.str "keepme") ∧
     (processImagePart okEnv 0
        (Json.obj [("type", Json.str "image"),
          ("image", Json.str "data:image/png;base64,AA"),
          ("data", Json.str "keepme")])).1.getField? "url" = none) ∧
    ((processImagePart okEnv 0
        (Json.obj [("type", Json.str "image"),
          ("data", Json.str "data:image/png;base64,AA")])).1.getField? "data" =
      none ∧
     (processImagePart okEnv 0
        (Json.obj [("type", Json.str "image"),
          ("data", Json.str "data:image/png;base64,AA")])).1.getField? "url" =
      some (Json.str "signed:uploads/uuid0/image.png:604800")) := by
  have h1 := (c10_image_property_precedence.1 okEnv 0
    (Json.obj [("type", Json.str "image"),
      ("image", Json.str "data:image/png;base64,AA"),
      ("data", Json.str "keepme")]) "data:image/png;base64,AA"
    (Json.str "keepme")
    ⟨"uploads/uuid0/image.png", Json.str "image/png",
      "signed:uploads/uuid0/image.png:604800", 604800⟩
    rfl (by decide) rfl (by decide) rfl)
  have h2 := (c10_image_property_precedence.2 okEnv 0
    (Json.obj [("type", Json.str "image"),
      ("data", Json.str "data:image/png;base64,AA")]) "data:image/png;base64,AA"
    ⟨"uploads/uuid0/image.png", Json.str "image/png",
      "signed:uploads/uuid0/image.png:604800", 604800⟩
    (by decide) rfl (by decide) (by decide) rfl)
  exact ⟨⟨h1.2.1, by rw [h1.2.2.1]; rfl, by rw [h1.2.2.2]; rfl⟩,
    ⟨h2.2.1, h2.2.2⟩⟩

/-- The item an uploadable content item becomes once its upload settles
(first component of the per-item processing; the item itself when the
processing would throw, which non-null items never do). -/
def contentItemOut (env : S3Env) (k : Nat) (fb : Option String)
    (item : Json) : Json :=
  match processContentItem env k fb item with
  | some (out, _) => out
  | none => item

/-- Number of upload attempts the collection loop makes before reaching
index i of the content array. -/
def uploadsBefore (items : List Json) (i : Nat) : Nat :=
  ((items.take i).filter (fun it => contentItemUploadable it)).length

theorem uploadsBefore_cons_succ (it : Json) (rest : List Json) (i : Nat) :
    uploadsBefore (it :: rest) (i + 1) =
      (if contentItemUploadable it then 1 else 0) + uploadsBefore rest i := by
  simp only [uploadsBefore, List.take_succ_cons, List.filter_cons]
  split <;> simp [Nat.add_comm]

/-- A non-null content item is processed without throwing, and its upload
attempt consumes exactly one attempt index when it is uploadable. -/
theorem processContentItem_snd (env : S3Env) (k : Nat) (fb : Option String)
    (item : Json) (hnn : item ≠ Json.null) :
    ∃ out, processContentItem env k fb item =
      some (out, k + (if contentItemUploadable item then 1 else 0)) := by
  cases item with
  | null => exact absurd rfl hnn
  | bool b => exact ⟨_, rfl⟩
  | num n => exact ⟨_, rfl⟩
  | str s => exact ⟨_, rfl⟩
  | arr l => exact ⟨_, rfl⟩
  | obj fields =>
    by_cases ht : (isStrEq ((Json.obj fields).getField? "type") "image" ||
        isStrEq ((Json.obj fields).getField? "type") "file") = true
    · cases hd : (Json.obj fields).getField? "data" with
      | none =>
        refine ⟨Json.obj fields, ?_⟩
        simp [processContentItem, contentItemUploadable, ht, hd]
      | some dv =>
        cases dv with
        | str d =>
          by_cases hde : d = ""
          · subst hde
            refine ⟨Json.obj fields, ?_⟩
            simp [processContentItem, contentItemUploadable, ht, hd]
          · have hd2 : (d != "") = true := by simp [hde]
            by_cases hcond : (strStartsWith d "data:" ||
                (!strStartsWith d "data:" && looksLikeRawBase64 d)) = true
            · have hupl : contentItemUploadable (Json.obj fields) = true := by
                simp [contentItemUploadable, ht, hd, hd2, hcond]
              cases hu : uploadBase64ToS3 env k d
                  (some (toolItemFilename (Json.obj fields) fb))
                  (if (!strStartsWith d "data:" && looksLikeRawBase64 d) then
                    some (toolItemMime (Json.obj fields)) else none) with
              | ok r =>
                refine ⟨((Json.obj fields).deleteField "data").setField "url"
                  (Json.str r.url), ?_⟩
                simp only [processContentItem, ht, hd, hd2, hcond, hu, hupl]
                simp
              | error e =>
                refine ⟨Json.obj fields, ?_⟩
                simp only [processContentItem, ht, hd, hd2, hcond, hu, hupl]
                simp
            · have hcond2 : (strStartsWith d "data:" ||
                  (!strStartsWith d "data:" && looksLikeRawBase64 d)) = false :=
                Bool.eq_false_iff.mpr hcond
              have hupl : contentItemUploadable (Json.obj fields) = false := by
                simp [contentItemUploadable, hd, hcond2]
              refine ⟨Json.obj fields, ?_⟩
              simp [processContentItem, hupl, ht, hd, hd2, hcond2]
        | null =>
          refine ⟨Json.obj fields, ?_⟩
          simp [processContentItem, contentItemUploadable, ht, hd]
        | bool b =>
          refine ⟨Json.obj fields, ?_⟩
          simp [processContentItem, contentItemUploadable, ht, hd]
        | num n =>
          refine ⟨Json.obj fields, ?_⟩
          simp [processContentItem, contentItemUploadable, ht, hd]
        | arr l =>
          refine ⟨Json.obj fields, ?_⟩
          simp [processContentItem, contentItemUploadable, ht, hd]
        | obj fs =>
          refine ⟨Json.obj fields, ?_⟩
          simp [processContentItem, contentItemUploadable, ht, hd]
    · have ht2 := Bool.eq_false_iff.mpr ht
      have hupl : contentItemUploadable (Json.obj fields) = false := by
        simp [contentItemUploadable, Bool.or_eq_false_iff.mp ht2]
      refine ⟨Json.obj fields, ?_⟩
      simp [processContentItem, hupl, ht2]

/-- The per-item processing of a non-null item, phrased through
contentItemOut. -/
theorem processContentItem_eq (env : S3Env) (k : Nat) (fb : Option String)
    (item : Json) (hnn : item ≠ Json.null) :
    processContentItem env k fb item =
      some (contentItemOut env k fb item,
        k + (if contentItemUploadable item then 1 else 0)) := by
  obtain ⟨out, h⟩ := processContentItem_snd env k fb item hnn
  have ho : contentItemOut env k fb item = out := by
    simp [contentItemOut, h]
  rw [ho]
  exact h

/-- The loop over a null-free content array resolves, processing the item
at index i with attempt counter k + uploadsBefore items i. -/
theorem processContentList_spec (env : S3Env) (fb : Option String) :
    ∀ (items : List Json) (k : Nat), (∀ it ∈ items, it ≠ Json.null) →
    processContentList env k fb items =
      some (((List.range items.length).map (fun i =>
          contentItemOut env (k + uploadsBefore items i) fb
            (items.getD i Json.null))),
        k + uploadsBefore items items.length) := by
  intro items
  induction items with
  | nil =>
    intro k h
    simp [processContentList, uploadsBefore]
  | cons it rest ih =>
    intro k h
    have hnn := h it (List.mem_cons_self it rest)
    have hrest := fun q hq => h q (List.mem_cons_of_mem it hq)
    have hhead := processContentItem_eq env k fb it hnn
    rw [processContentList]
    simp only [hhead]
    rw [ih (k + (if contentItemUploadable it then 1 else 0)) hrest]
    have hlen : (it :: rest).length = rest.length + 1 := rfl
    rw [hlen]
    have hmap : (List.range (rest.length + 1)).map (fun i =>
        contentItemOut env (k + uploadsBefore (it :: rest) i) fb
          ((it :: rest).getD i Json.null)) =
        contentItemOut env k fb it :: (List.range rest.length).map (fun i =>
          contentItemOut env
            (k + (if contentItemUploadable it then 1 else 0) +
              uploadsBefore rest i) fb (rest.getD i Json.null)) := by
      rw [List.range_succ_eq_map, List.map_cons, List.map_map]
      refine congrArg₂ _ ?_ ?_
      · simp [uploadsBefore]
      · apply List.map_congr_left
        intro i _
        simp [Function.comp, uploadsBefore_cons_succ, Nat.add_assoc]
    rw [hmap, uploadsBefore_cons_succ, Nat.add_assoc]

/-- The step a content item takes when it is uploadable: one upload
attempt whose two outcomes are the url substitution and the unchanged
item. -/
theorem processContentItem_uploadable_step (env : S3Env) (k : Nat)
    (fb : Option String) (item : Json) (d : String)
    (hup : contentItemUploadable item = true)
    (hd : item.getField? "data" = some (Json.str d)) :
    processContentItem env k fb item =
      some (match uploadBase64ToS3 env k d (some (toolItemFilename item fb))
          (if (!strStartsWith d "data:" && looksLikeRawBase64 d) then
            some (toolItemMime item) else none) with
        | Except.ok r =>
          ((item.deleteField "data").setField "url" (Json.str r.url), k + 1)
        | Except.error _ => (item, k + 1)) := by
  obtain ⟨fields, rfl⟩ : ∃ fields, item = Json.obj fields := by
    cases item <;> simp [Json.getField?] at hd
    exact ⟨_, rfl⟩
  have hup2 := hup
  unfold contentItemUploadable at hup2
  rw [hd] at hup2
  obtain ⟨htype, hdata⟩ := Bool.and_eq_true_iff.mp hup2
  obtain ⟨hdne, hcond⟩ := Bool.and_eq_true_iff.mp hdata
  cases hu : uploadBase64ToS3 env k d
      (some (toolItemFilename (Json.obj fields) fb))
      (if (!strStartsWith d "data:" && looksLikeRawBase64 d) then
        some (toolItemMime (Json.obj fields)) else none) with
  | ok r =>
    simp only [processContentItem, htype, hd, hdne, hcond, hu]
    simp
  | error e =>
    simp only [processContentItem, htype, hd, hdne, hcond, hu]
    simp

/-- Counterexample to claim C4: a tool result whose content holds one
uploadable image (whose upload attempt fails in this environment) and a
null entry.  One discovered item's upload fails, yet the overall call
does not resolve: the loop throws a TypeError reading null.type and the
promise rejects. -/
theorem c4_counterexample :
    contentItemUploadable (Json.obj [("type", Json.str "image"),
      ("data", Json.str "data:image/png;base64,AA")]) = true ∧
    failFirstEnv.putFails 0 = true ∧
    processToolResultForBase64 failFirstEnv 0
      (Json.obj [("content", Json.arr [
        Json.obj [("type", Json.str "image"),
          ("data", Json.str "data:image/png;base64,AA")],
        Json.null])]) none = none :=
  ⟨by decide, by decide, rfl⟩

/-- Claim C4 as amended: for a tool result whose content array has no
null entries, the call always resolves, item i is processed with attempt
counter k + uploadsBefore items i, and for each uploadable item the
attempt has exactly two outcomes - on a storage rejection the item keeps
its original inline payload, and on success its data is replaced by the
url - so when one upload fails every other item is still substituted and
the call still resolves; likewise a data-URL string leaf of the generic
walk keeps its original payload when its upload fails and becomes the url
when it succeeds. -/
theorem c4_graceful_degradation :
    (∀ (env : S3Env) (k : Nat) (fields : List (String × Json))
        (items : List Json) (fname : Option String),
      fields.lookup "content" = some (Json.arr items) →
      (∀ it ∈ items, it ≠ Json.null) →
      processToolResultForBase64 env k (Json.obj fields) fname =
        some ((Json.obj fields).setField "content" (Json.arr
            ((List.range items.length).map (fun i =>
              contentItemOut env (k + uploadsBefore items i) fname
                (items.getD i Json.null)))),
          k + uploadsBefore items items.length)) ∧
    (∀ (env : S3Env) (k : Nat) (fb : Option String) (item : Json)
        (d : String) (e : UploadError),
      contentItemUploadable item = true →
      item.getField? "data" = some (Json.str d) →
      uploadBase64ToS3 env k d (some (toolItemFilename item fb))
          (if (!strStartsWith d "data:" && looksLikeRawBase64 d) then
            some (toolItemMime item) else none) = Except.error e →
      processContentItem env k fb item = some (item, k + 1)) ∧
    (∀ (env : S3Env) (k : Nat) (fb : Option String) (item : Json)
        (d : String) (r : UploadRecord),
      contentItemUploadable item = true →
      item.getField? "data" = some (Json.str d) →
      uploadBase64ToS3 env k d (some (toolItemFilename item fb))
          (if (!strStartsWith d "data:" && looksLikeRawBase64 d) then
            some (toolItemMime item) else none) = Except.ok r →
      processContentItem env k fb item =
        some ((item.deleteField "data").setField "url" (Json.str r.url),
          k + 1)) ∧
    (∀ (env : S3Env) (k : Nat) (s : String) (filename mimeType : Option Json)
        (e : UploadError),
      (strStartsWith s "data:" && strIncludes s ";base64,") = true →
      uploadBase64ToS3 env k s filename none = Except.error e →
      replaceBase64InObject env (Json.str s) filename mimeType k =
        (Json.str s, k + 1)) ∧
    (∀ (env : S3Env) (k : Nat) (s : String) (filename mimeType : Option Json)
        (r : UploadRecord),
      (strStartsWith s "data:" && strIncludes s ";base64,") = true →
      uploadBase64ToS3 env k s filename none = Except.ok r →
      replaceBase64InObject env (Json.str s) filename mimeType k =
        (Json.str r.url, k + 1)) := by
  refine ⟨?_, ?_, ?_, ?_, ?_⟩
  · intro env k fields items fname hc hnn
    simp only [processToolResultForBase64, hc,
      processContentList_spec env fname items k hnn]
  · intro env k fb item d e hup hd herr
    rw [processContentItem_uploadable_step env k fb item d hup hd, herr]
  · intro env k fb item d r hup hd hok
    rw [processContentItem_uploadable_step env k fb item d hup hd, hok]
  · intro env k s filename mimeType e hcond herr
    simp [replaceBase64InObject, hcond, herr]
  · intro env k s filename mimeType r hcond hok
    simp [replaceBase64InObject, hcond, hok]

/-- Witness for claim C4: a two-image tool result in the environment
whose first attempt fails at the PUT resolves with the first item
unchanged and the second substituted, and the leaf cases fire at
concrete strings. -/
theorem c4_graceful_degradation_witness :
    processToolResultForBase64 failFirstEnv 0
      (Json.obj [("content", Json.arr [
        Json.obj [("type", Json.str "image"),
          ("data", Json.str "data:image/png;base64,AA")],
        Json.obj [("type", Json.str "image"),
          ("data", Json.str "data:image/png;base64,BB")]])]) none =
      some ((Json.obj [("content", Json.arr [
        Json.obj [("type", Json.str "image"),
          ("data", Json.str "data:image/png;base64,AA")],
        Json.obj [("type", Json.str "image"),
          ("data", Json.str "data:image/png;base64,BB")]])]).setField
          "content" (Json.arr
            ((List.range 2).map (fun i =>
              contentItemOut failFirstEnv
                (0 + uploadsBefore [
                  Json.obj [("type", Json.str "image"),
                    ("data", Json.str "data:image/png;base64,AA")],
                  Json.obj [("type", Json.str "image"),
                    ("data", Json.str "data:image/png;base64,BB")]] i) none
                ([Json.obj [("type", Json.str "image"),
                    ("data", Json.str "data:image/png;base64,AA")],
                  Json.obj [("type", Json.str "image"),
                    ("data", Json.str "data:image/png;base64,BB")]].getD i
                  Json.null)))),
        0 + uploadsBefore [
          Json.obj [("type", Json.str "image"),
            ("data", Json.str "data:image/png;base64,AA")],
          Json.obj [("type", Json.str "image"),
            ("data", Json.str "data:image/png;base64,BB")]] 2) ∧
    contentItemOut failFirstEnv 0 none
      (Json.obj [("type", Json.str "image"),
        ("data", Json.str "data:image/png;base64,AA")]) =
      Json.obj [("type", Json.str "image"),
        ("data", Json.str "data:image/png;base64,AA")] ∧
    contentItemOut failFirstEnv 1 none
      (Json.obj [("type", Json.str "image"),
        ("data", Json.str "data:image/png;base64,BB")]) =
      Json.obj [("type", Json.str "image"),
        ("url", Json.str "signed:uploads/uuid1/screenshot.png:604800")] ∧
    replaceBase64InObject failFirstEnv
      (Json.str "data:image/png;base64,AA") none none 0 =
      (Json.str "data:image/png;base64,AA", 0 + 1) :=
  ⟨c4_graceful_degradation.1 failFirstEnv 0
      [("content", Json.arr [
        Json.obj [("type", Json.str "image"),
          ("data", Json.str "data:image/png;base64,AA")],
        Json.obj [("type", Json.str "image"),
          ("data", Json.str "data:image/png;base64,BB")]])]
      [Json.obj [("type", Json.str "image"),
          ("data", Json.str "data:image/png;base64,AA")],
        Json.obj [("type", Json.str "image"),
          ("data", Json.str "data:image/png;base64,BB")]] none rfl
      (by simp),
   rfl, rfl,
   c4_graceful_degradation.2.2.2.1 failFirstEnv 0 "data:image/png;base64,AA"
     none none UploadError.storageFailure (by decide) rfl⟩

/-! ## Non-mutation of the heap (claim C3)

The entry points only ever write cells of the clone they allocate, never
cells that existed before the call.  The invariant: all cells at
addresses at or above the original heap size n reference only addresses
at or above n, so every address the mutation phase can reach from the
clone - and hence every address it writes - is at or above n, and cells
below n are untouched. -/

/-- A value references only addresses at or above n. -/
def HVal.refGe (n : Nat) : HVal → Prop
  | .ref a => n ≤ a
  | _ => True

/-- A cell content references only addresses at or above n. -/
def HNode.refsGe (n : Nat) : HNode → Prop
  | .arr elems => ∀ v ∈ elems, HVal.refGe n v
  | .obj fields => ∀ kv ∈ fields, HVal.refGe n kv.2

/-- Every cell at or above n references only addresses at or above n. -/
def GoodRegion (h : Heap) (n : Nat) : Prop :=
  ∀ a node, n ≤ a → h.read a = some node → HNode.refsGe n node

/-- The region bound is within the heap and the region is closed. -/
def RegionOk (n : Nat) (h : Heap) : Prop :=
  n ≤ h.size ∧ GoodRegion h n

/-- Cells below n read the same in both heaps. -/
def PreservesBelow (n : Nat) (h h2 : Heap) : Prop :=
  ∀ a, a < n → h2.read a = h.read a

theorem preservesBelow_refl (n : Nat) (h : Heap) : PreservesBelow n h h :=
  fun _ _ => rfl

theorem preservesBelow_trans {n : Nat} {h h2 h3 : Heap}
    (h12 : PreservesBelow n h h2) (h23 : PreservesBelow n h2 h3) :
    PreservesBelow n h h3 :=
  fun a ha => (h23 a ha).trans (h12 a ha)

theorem list_get?_set_ne {α : Type _} (l : List α) (i j : Nat) (x : α)
    (h : i ≠ j) : (l.set i x).get? j = l.get? j := by
  induction l generalizing i j with
  | nil => simp
  | cons a t ih =>
    cases i with
    | zero =>
      cases j with
      | zero => exact absurd rfl h
      | succ j => simp [List.set]
    | succ i =>
      cases j with
      | zero => simp [List.set]
      | succ j =>
        simp only [List.set, List.get?]
        exact ih i j (fun he => h (by rw [he]))

theorem Heap.read_none_of_ge (h : Heap) (a : Nat) (ha : h.size ≤ a) :
    h.read a = none :=
  List.get?_eq_none.mpr ha

theorem Heap.lt_size_of_read (h : Heap) (a : Nat) (node : HNode)
    (hr : h.read a = some node) : a < h.size := by
  by_contra hge
  rw [Heap.read_none_of_ge h a (Nat.le_of_not_lt hge)] at hr
  cases hr

theorem Heap.size_alloc (h : Heap) (nd : HNode) :
    (h.alloc nd).1.size = h.size + 1 := by
  simp [Heap.alloc, Heap.size]

theorem Heap.read_alloc_lt (h : Heap) (nd : HNode) (a : Nat)
    (ha : a < h.size) : (h.alloc nd).1.read a = h.read a := by
  simp only [Heap.alloc, Heap.read]
  exact List.get?_append ha

theorem Heap.read_alloc_self (h : Heap) (nd : HNode) :
    (h.alloc nd).1.read (h.alloc nd).2 = some nd := by
  simp only [Heap.alloc, Heap.read]
  exact List.get?_concat_length _ _

theorem Heap.size_write (h : Heap) (a : Nat) (nd : HNode) :
    (h.write a nd).size = h.size := by
  simp [Heap.write, Heap.size]

theorem Heap.read_write_ne (h : Heap) (a : Nat) (nd : HNode) (a2 : Nat)
    (hne : a ≠ a2) : (h.write a nd).read a2 = h.read a2 := by
  simp only [Heap.write, Heap.read]
  exact list_get?_set_ne _ _ _ _ hne

theorem goodRegion_of_size (h : Heap) : GoodRegion h h.size := by
  intro a node ha hread
  rw [Heap.read_none_of_ge h a ha] at hread
  cases hread

theorem goodRegion_alloc {h : Heap} {n : Nat} (nd : HNode)
    (hn : n ≤ h.size) (hg : GoodRegion h n) (hnd : HNode.refsGe n nd) :
    GoodRegion (h.alloc nd).1 n := by
  intro a node ha hread
  by_cases hlt : a < h.size
  · rw [Heap.read_alloc_lt h nd a hlt] at hread
    exact hg a node ha hread
  · have hsz := Heap.lt_size_of_read _ _ _ hread
    rw [Heap.size_alloc] at hsz
    have haeq : a = h.size := by omega
    have : (h.alloc nd).2 = h.size := rfl
    rw [haeq, ← this, Heap.read_alloc_self] at hread
    cases hread
    exact hnd

theorem list_get?_set_self {α : Type _} (l : List α) (i : Nat) (x : α)
    (hi : i < l.length) : (l.set i x).get? i = some x := by
  induction l generalizing i with
  | nil => cases hi
  | cons a t ih =>
    cases i with
    | zero => rfl
    | succ i => exact ih i (Nat.lt_of_succ_lt_succ hi)

theorem list_set_of_ge {α : Type _} (l : List α) (i : Nat) (x : α)
    (hi : l.length ≤ i) : l.set i x = l := by
  induction l generalizing i with
  | nil => rfl
  | cons a t ih =>
    cases i with
    | zero => simp at hi
    | succ i => simp [List.set, ih i (Nat.le_of_succ_le_succ hi)]

theorem goodRegion_write {h : Heap} {n : Nat} {a : Nat} (nd : HNode)
    (hg : GoodRegion h n) (hnd : HNode.refsGe n nd) :
    GoodRegion (h.write a nd) n := by
  intro a2 node ha2 hread
  by_cases he : a = a2
  · subst he
    by_cases hlt : a < h.size
    · have hr : (h.write a nd).read a = some nd := by
        simp only [Heap.write, Heap.read]
        exact list_get?_set_self _ _ _ hlt
      rw [hr] at hread
      cases hread
      exact hnd
    · have hnoop : h.write a nd = h := by
        simp only [Heap.write]
        rw [list_set_of_ge _ _ _ (Nat.le_of_not_lt hlt)]
      rw [hnoop] at hread
      exact hg a node ha2 hread
  · rw [Heap.read_write_ne h a nd a2 he] at hread
    exact hg a2 node ha2 hread

theorem regionOk_alloc {h : Heap} {n : Nat} (nd : HNode)
    (hok : RegionOk n h) (hnd : HNode.refsGe n nd) :
    RegionOk n (h.alloc nd).1 := by
  refine ⟨?_, goodRegion_alloc nd hok.1 hok.2 hnd⟩
  rw [Heap.size_alloc]
  have := hok.1
  omega

theorem preservesBelow_alloc {h : Heap} {n : Nat} (nd : HNode)
    (hn : n ≤ h.size) : PreservesBelow n h (h.alloc nd).1 :=
  fun a ha => Heap.read_alloc_lt h nd a (by omega)

mutual

/-- Allocating a fresh copy of a pure value extends the heap, preserves
every pre-existing cell, keeps the region closed and returns a value
referencing only the region. -/
theorem allocJson_spec (j : Json) (h : Heap) (n : Nat) (hok : RegionOk n h) :
    h.size ≤ (allocJson j h).1.size ∧
    PreservesBelow h.size h (allocJson j h).1 ∧
    RegionOk n (allocJson j h).1 ∧
    HVal.refGe n (allocJson j h).2 := by
  cases j with
  | null => exact ⟨Nat.le_refl _, preservesBelow_refl _ _, hok, trivial⟩
  | bool b => exact ⟨Nat.le_refl _, preservesBelow_refl _ _, hok, trivial⟩
  | num m => exact ⟨Nat.le_refl _, preservesBelow_refl _ _, hok, trivial⟩
  | str s => exact ⟨Nat.le_refl _, preservesBelow_refl _ _, hok, trivial⟩
  | arr items =>
    obtain ⟨hsz, hpres, hok2, hvals⟩ := allocJsonList_spec items h n hok
    simp only [allocJson]
    refine ⟨?_, ?_, ?_, ?_⟩
    · rw [Heap.size_alloc]
      omega
    · exact preservesBelow_trans hpres
        (fun a ha => Heap.read_alloc_lt _ _ a (by omega))
    · exact regionOk_alloc _ hok2 hvals
    · have : n ≤ (allocJsonList items h).1.size := by
        have := hok.1
        omega
      simpa [HVal.refGe, Heap.alloc, Heap.size] using this
  | obj fields =>
    obtain ⟨hsz, hpres, hok2, hvals⟩ := allocJsonFields_spec fields h n hok
    simp only [allocJson]
    refine ⟨?_, ?_, ?_, ?_⟩
    · rw [Heap.size_alloc]
      omega
    · exact preservesBelow_trans hpres
        (fun a ha => Heap.read_alloc_lt _ _ a (by omega))
    · exact regionOk_alloc _ hok2 hvals
    · have : n ≤ (allocJsonFields fields h).1.size := by
        have := hok.1
        omega
      simpa [HVal.refGe, Heap.alloc, Heap.size] using this

/-- The list form of allocJson_spec. -/
theorem allocJsonList_spec (l : List Json) (h : Heap) (n : Nat)
    (hok : RegionOk n h) :
    h.size ≤ (allocJsonList l h).1.size ∧
    PreservesBelow h.size h (allocJsonList l h).1 ∧
    RegionOk n (allocJsonList l h).1 ∧
    (∀ v ∈ (allocJsonList l h).2, HVal.refGe n v) := by
  cases l with
  | nil =>
    simp only [allocJsonList]
    exact ⟨Nat.le_refl _, preservesBelow_refl _ _, hok, by simp⟩
  | cons j rest =>
    obtain ⟨hsz1, hpres1, hok1, hv1⟩ := allocJson_spec j h n hok
    obtain ⟨hsz2, hpres2, hok2, hv2⟩ :=
      allocJsonList_spec rest (allocJson j h).1 n hok1
    simp only [allocJsonList]
    refine ⟨by omega, ?_, hok2, ?_⟩
    · exact preservesBelow_trans hpres1 (fun a ha => hpres2 a (by omega))
    · intro v hv
      rcases List.mem_cons.mp hv with rfl | hmem
      · exact hv1
      · exact hv2 v hmem

/-- The field-list form of allocJson_spec. -/
theorem allocJsonFields_spec (l : List (String × Json)) (h : Heap) (n : Nat)
    (hok : RegionOk n h) :
    h.size ≤ (allocJsonFields l h).1.size ∧
    PreservesBelow h.size h (allocJsonFields l h).1 ∧
    RegionOk n (allocJsonFields l h).1 ∧
    (∀ kv ∈ (allocJsonFields l h).2, HVal.refGe n kv.2) := by
  cases l with
  | nil =>
    simp only [allocJsonFields]
    exact ⟨Nat.le_refl _, preservesBelow_refl _ _, hok, by simp⟩
  | cons kj rest =>
    obtain ⟨key, j⟩ := kj
    obtain ⟨hsz1, hpres1, hok1, hv1⟩ := allocJson_spec j h n hok
    obtain ⟨hsz2, hpres2, hok2, hv2⟩ :=
      allocJsonFields_spec rest (allocJson j h).1 n hok1
    simp only [allocJsonFields]
    refine ⟨by omega, ?_, hok2, ?_⟩
    · exact preservesBelow_trans hpres1 (fun a ha => hpres2 a (by omega))
    · intro kv hkv
      rcases List.mem_cons.mp hkv with rfl | hmem
      · exact hv1
      · exact hv2 kv hmem

end

@[simp] theorem JsStep.heap_ok {α : Type} (h : Heap) (v : α) :
    (JsStep.ok h v).heap = h := rfl

@[simp] theorem JsStep.heap_thrown {α : Type} (h : Heap) :
    (JsStep.thrown h : JsStep α).heap = h := rfl

/-- A successful lookup in a region-closed field list yields a value
referencing only the region. -/
theorem lookupF_refGe (n : Nat) (key : String) :
    ∀ (fields : List (String × HVal)) (v : HVal),
    (∀ kv ∈ fields, HVal.refGe n kv.2) → lookupF fields key = some v →
    HVal.refGe n v := by
  intro fields
  induction fields with
  | nil => intro v _ hl; cases hl
  | cons kv0 rest ih =>
    obtain ⟨k0, v0⟩ := kv0
    intro v hf hl
    rw [lookupF, List.lookup_cons] at hl
    by_cases hb : (key == k0) = true
    · rw [hb] at hl
      cases hl
      exact hf (k0, v0) (List.mem_cons_self _ _)
    · rw [Bool.eq_false_iff.mpr hb] at hl
      exact ih v (fun kv h => hf kv (List.mem_cons_of_mem _ h)) hl

/-- Property assignment preserves region closure of a field list. -/
theorem setF_refsGe (n : Nat) (key : String) (v : HVal)
    (hv : HVal.refGe n v) :
    ∀ (fields : List (String × HVal)),
    (∀ kv ∈ fields, HVal.refGe n kv.2) →
    ∀ kv ∈ setF fields key v, HVal.refGe n kv.2 := by
  intro fields
  induction fields with
  | nil =>
    intro _ kv hkv
    rw [setF] at hkv
    rcases List.mem_singleton.mp hkv with rfl
    exact hv
  | cons kv0 rest ih =>
    obtain ⟨k0, v0⟩ := kv0
    intro hf kv hkv
    rw [setF] at hkv
    by_cases h0 : k0 = key
    · rw [if_pos h0] at hkv
      rcases List.mem_cons.mp hkv with rfl | hmem
      · exact hv
      · exact hf kv (List.mem_cons_of_mem _ hmem)
    · rw [if_neg h0] at hkv
      rcases List.mem_cons.mp hkv with rfl | hmem
      · exact hf (k0, v0) (List.mem_cons_self _ _)
      · exact ih (fun kv h => hf kv (List.mem_cons_of_mem _ h)) kv hmem

/-- Property deletion preserves region closure of a field list. -/
theorem deleteF_refsGe (n : Nat) (key : String)
    (fields : List (String × HVal))
    (hf : ∀ kv ∈ fields, HVal.refGe n kv.2) :
    ∀ kv ∈ deleteF fields key, HVal.refGe n kv.2 :=
  fun kv hkv => hf kv (List.mem_of_mem_filter hkv)

/-- The image substitution preserves region closure. -/
theorem imageSubstFields_refsGe (n : Nat) (fields : List (String × HVal))
    (url : String) (hf : ∀ kv ∈ fields, HVal.refGe n kv.2) :
    ∀ kv ∈ imageSubstFields fields url, HVal.refGe n kv.2 := by
  simp only [imageSubstFields]
  by_cases h1 : truthyFieldH fields "image" = true
  · simp only [if_pos h1]
    have hfs1 := setF_refsGe n "image" (.str url) trivial fields hf
    split
    · exact deleteF_refsGe n "mimeType" _ hfs1
    · exact hfs1
  · simp only [if_neg h1]
    by_cases h2 : truthyFieldH fields "data" = true
    · simp only [if_pos h2]
      have hfs1 := setF_refsGe n "url" (.str url) trivial
        (deleteF fields "data") (deleteF_refsGe n "data" fields hf)
      split
      · exact deleteF_refsGe n "mimeType" _ hfs1
      · exact hfs1
    · simp only [if_neg h2]
      split
      · exact deleteF_refsGe n "mimeType" _ hf
      · exact hf

/-- The file substitution preserves region closure. -/
theorem fileSubstFields_refsGe (n : Nat) (fields : List (String × HVal))
    (url : String) (hf : ∀ kv ∈ fields, HVal.refGe n kv.2) :
    ∀ kv ∈ fileSubstFields fields url, HVal.refGe n kv.2 := by
  simp only [fileSubstFields]
  have hfs1 := setF_refsGe n "url" (.str url) trivial (deleteF fields "data")
    (deleteF_refsGe n "data" fields hf)
  split
  · exact deleteF_refsGe n "mimeType" _ hfs1
  · exact hfs1

/-- The content-item substitution preserves region closure. -/
theorem contentItemSubstFields_refsGe (n : Nat)
    (fields : List (String × HVal)) (url : String)
    (hf : ∀ kv ∈ fields, HVal.refGe n kv.2) :
    ∀ kv ∈ contentItemSubstFields fields url, HVal.refGe n kv.2 :=
  setF_refsGe n "url" (.str url) trivial (deleteF fields "data")
    (deleteF_refsGe n "data" fields hf)

/-- Writing a region-closed node at a region address keeps the region
closed, keeps the bound, and touches no cell below the bound. -/
theorem write_region_step {h : Heap} {n a : Nat} (nd : HNode)
    (hok : RegionOk n h) (hna : n ≤ a) (hnd : HNode.refsGe n nd) :
    RegionOk n (h.write a nd) ∧ PreservesBelow n h (h.write a nd) := by
  refine ⟨⟨?_, goodRegion_write nd hok.2 hnd⟩, ?_⟩
  · rw [Heap.size_write]
    exact hok.1
  · intro a2 ha2
    exact Heap.read_write_ne h a nd a2 (by omega)

/-- The heap-level image-part step only writes the part cell, which lies
in the region, with a region-closed node. -/
theorem processImagePartH_spec (env : S3Env) (fuel : Nat) (h : Heap) (k : Nat)
    (a : Nat) (fields : List (String × HVal)) (n : Nat)
    (hok : RegionOk n h) (hna : n ≤ a)
    (hf : ∀ kv ∈ fields, HVal.refGe n kv.2) :
    ∀ h2 k2, processImagePartH env fuel h k a fields = some (h2, k2) →
    RegionOk n h2 ∧ PreservesBelow n h h2 := by
  intro h2 k2 hcall
  unfold processImagePartH at hcall
  repeat split at hcall
  all_goals try cases hcall
  all_goals try exact ⟨hok, preservesBelow_refl n h⟩
  all_goals
    exact write_region_step _ hok hna (imageSubstFields_refsGe n fields _ hf)

/-- The heap-level file-part step only writes the part cell. -/
theorem processFilePartH_spec (env : S3Env) (fuel : Nat) (h : Heap) (k : Nat)
    (a : Nat) (fields : List (String × HVal)) (n : Nat)
    (hok : RegionOk n h) (hna : n ≤ a)
    (hf : ∀ kv ∈ fields, HVal.refGe n kv.2) :
    ∀ h2 k2, processFilePartH env fuel h k a fields = some (h2, k2) →
    RegionOk n h2 ∧ PreservesBelow n h h2 := by
  intro h2 k2 hcall
  unfold processFilePartH at hcall
  repeat split at hcall
  all_goals try cases hcall
  all_goals try exact ⟨hok, preservesBelow_refl n h⟩
  all_goals
    exact write_region_step _ hok hna (fileSubstFields_refsGe n fields _ hf)

/-- A preservation bound can be weakened. -/
theorem preservesBelow_mono {n m : Nat} {h h2 : Heap} (hnm : n ≤ m)
    (hp : PreservesBelow m h h2) : PreservesBelow n h h2 :=
  fun a ha => hp a (by omega)

/-- The heap-level content-item step throws on null and otherwise only
writes the item cell, which lies in the region, with a region-closed
node. -/
theorem processContentItemH_spec (env : S3Env) (fuel : Nat) (h : Heap)
    (k : Nat) (fb : Option String) (iv : HVal) (n : Nat)
    (hok : RegionOk n h) (hiv : HVal.refGe n iv) :
    ∀ st, processContentItemH env fuel h k fb iv = some st →
    RegionOk n st.heap ∧ PreservesBelow n h st.heap := by
  intro st hcall
  cases iv with
  | null =>
    simp only [processContentItemH] at hcall
    cases hcall
    exact ⟨hok, preservesBelow_refl n h⟩
  | bool b =>
    simp only [processContentItemH] at hcall
    cases hcall
    exact ⟨hok, preservesBelow_refl n h⟩
  | num m =>
    simp only [processContentItemH] at hcall
    cases hcall
    exact ⟨hok, preservesBelow_refl n h⟩
  | str s =>
    simp only [processContentItemH] at hcall
    cases hcall
    exact ⟨hok, preservesBelow_refl n h⟩
  | ref a =>
    have hna : n ≤ a := hiv
    simp only [processContentItemH] at hcall
    split at hcall
    · rename_i fields hread
      have hf : ∀ kv ∈ fields, HVal.refGe n kv.2 :=
        hok.2 a (.obj fields) hna hread
      repeat split at hcall
      all_goals try cases hcall
      all_goals try exact ⟨hok, preservesBelow_refl n h⟩
      all_goals
        exact write_region_step _ hok hna
          (contentItemSubstFields_refsGe n fields _ hf)
    · cases hcall
      exact ⟨hok, preservesBelow_refl n h⟩
    · cases hcall

/-- The heap-level part step throws on null and otherwise dispatches to
the image or file step, each of which only writes the part cell. -/
theorem processPartH_spec (env : S3Env) (fuel : Nat) (h : Heap) (k : Nat)
    (pv : HVal) (n : Nat) (hok : RegionOk n h) (hpv : HVal.refGe n pv) :
    ∀ st, processPartH env fuel h k pv = some st →
    RegionOk n st.heap ∧ PreservesBelow n h st.heap := by
  intro st hcall
  cases pv with
  | null =>
    simp only [processPartH] at hcall
    cases hcall
    exact ⟨hok, preservesBelow_refl n h⟩
  | bool b =>
    simp only [processPartH] at hcall
    cases hcall
    exact ⟨hok, preservesBelow_refl n h⟩
  | num m =>
    simp only [processPartH] at hcall
    cases hcall
    exact ⟨hok, preservesBelow_refl n h⟩
  | str s =>
    simp only [processPartH] at hcall
    cases hcall
    exact ⟨hok, preservesBelow_refl n h⟩
  | ref a =>
    have hna : n ≤ a := hpv
    simp only [processPartH] at hcall
    split at hcall
    · rename_i fields hread
      have hf : ∀ kv ∈ fields, HVal.refGe n kv.2 :=
        hok.2 a (.obj fields) hna hread
      by_cases himg : isStrEqH (lookupF fields "type") "image" = true
      · rw [if_pos himg] at hcall
        cases hstep : processImagePartH env fuel h k a fields with
        | none =>
          rw [hstep] at hcall
          cases hcall
        | some p =>
          obtain ⟨h2, k2⟩ := p
          rw [hstep] at hcall
          cases hcall
          exact processImagePartH_spec env fuel h k a fields n hok hna hf
            h2 k2 hstep
      · rw [if_neg himg] at hcall
        by_cases hfile : isStrEqH (lookupF fields "type") "file" = true
        · rw [if_pos hfile] at hcall
          cases hstep : processFilePartH env fuel h k a fields with
          | none =>
            rw [hstep] at hcall
            cases hcall
          | some p =>
            obtain ⟨h2, k2⟩ := p
            rw [hstep] at hcall
            cases hcall
            exact processFilePartH_spec env fuel h k a fields n hok hna hf
              h2 k2 hstep
        · rw [if_neg hfile] at hcall
          cases hcall
          exact ⟨hok, preservesBelow_refl n h⟩
    · cases hcall
      exact ⟨hok, preservesBelow_refl n h⟩
    · cases hcall

/-- The loop over the parts of one message keeps the region closed and
touches no cell below the bound. -/
theorem processPartsH_spec (env : S3Env) (fuel : Nat) (parts : List HVal) :
    ∀ (h : Heap) (k n : Nat), RegionOk n h →
    (∀ v ∈ parts, HVal.refGe n v) →
    ∀ st, processPartsH env fuel h k parts = some st →
    RegionOk n st.heap ∧ PreservesBelow n h st.heap := by
  induction parts with
  | nil =>
    intro h k n hok _ st hcall
    simp only [processPartsH] at hcall
    cases hcall
    exact ⟨hok, preservesBelow_refl n h⟩
  | cons pv rest ih =>
    intro h k n hok hvs st hcall
    simp only [processPartsH] at hcall
    cases hstep : processPartH env fuel h k pv with
    | none =>
      rw [hstep] at hcall
      cases hcall
    | some s1 =>
      rw [hstep] at hcall
      obtain ⟨hok1, hpres1⟩ := processPartH_spec env fuel h k pv n hok
        (hvs pv (List.mem_cons_self pv rest)) s1 hstep
      cases s1 with
      | thrown h2 =>
        cases hcall
        exact ⟨hok1, hpres1⟩
      | ok h2 k2 =>
        obtain ⟨hok2, hpres2⟩ := ih h2 k2 n hok1
          (fun v hv => hvs v (List.mem_cons_of_mem pv hv)) st hcall
        exact ⟨hok2, preservesBelow_trans hpres1 hpres2⟩

/-- The loop over the cloned tool-result content items keeps the region
closed and touches no cell below the bound. -/
theorem processContentListH_spec (env : S3Env) (fuel : Nat)
    (fb : Option String) (items : List HVal) :
    ∀ (h : Heap) (k n : Nat), RegionOk n h →
    (∀ v ∈ items, HVal.refGe n v) →
    ∀ st, processContentListH env fuel h k fb items = some st →
    RegionOk n st.heap ∧ PreservesBelow n h st.heap := by
  induction items with
  | nil =>
    intro h k n hok _ st hcall
    simp only [processContentListH] at hcall
    cases hcall
    exact ⟨hok, preservesBelow_refl n h⟩
  | cons iv rest ih =>
    intro h k n hok hvs st hcall
    simp only [processContentListH] at hcall
    cases hstep : processContentItemH env fuel h k fb iv with
    | none =>
      rw [hstep] at hcall
      cases hcall
    | some s1 =>
      rw [hstep] at hcall
      obtain ⟨hok1, hpres1⟩ := processContentItemH_spec env fuel h k fb iv n
        hok (hvs iv (List.mem_cons_self iv rest)) s1 hstep
      cases s1 with
      | thrown h2 =>
        cases hcall
        exact ⟨hok1, hpres1⟩
      | ok h2 k2 =>
        obtain ⟨hok2, hpres2⟩ := ih h2 k2 n hok1
          (fun v hv => hvs v (List.mem_cons_of_mem iv hv)) st hcall
        exact ⟨hok2, preservesBelow_trans hpres1 hpres2⟩

/-- The heap-level message step throws on null and otherwise only runs
the parts loop on a region-closed parts array. -/
theorem processMessageH_spec (env : S3Env) (fuel : Nat) (h : Heap) (k : Nat)
    (mv : HVal) (n : Nat) (hok : RegionOk n h) (hmv : HVal.refGe n mv) :
    ∀ st, processMessageH env fuel h k mv = some st →
    RegionOk n st.heap ∧ PreservesBelow n h st.heap := by
  intro st hcall
  cases mv with
  | null =>
    simp only [processMessageH] at hcall
    cases hcall
    exact ⟨hok, preservesBelow_refl n h⟩
  | bool b =>
    simp only [processMessageH] at hcall
    cases hcall
    exact ⟨hok, preservesBelow_refl n h⟩
  | num m =>
    simp only [processMessageH] at hcall
    cases hcall
    exact ⟨hok, preservesBelow_refl n h⟩
  | str s =>
    simp only [processMessageH] at hcall
    cases hcall
    exact ⟨hok, preservesBelow_refl n h⟩
  | ref a =>
    have hna : n ≤ a := hmv
    simp only [processMessageH] at hcall
    split at hcall
    · rename_i fields hread
      have hf : ∀ kv ∈ fields, HVal.refGe n kv.2 :=
        hok.2 a (.obj fields) hna hread
      split at hcall
      · rename_i ca hlk
        have hca : n ≤ ca :=
          lookupF_refGe n "content" fields (.ref ca) hf hlk
        split at hcall
        · rename_i parts hread2
          have hps : ∀ v ∈ parts, HVal.refGe n v :=
            hok.2 ca (.arr parts) hca hread2
          exact processPartsH_spec env fuel parts h k n hok hps st hcall
        · cases hcall
          exact ⟨hok, preservesBelow_refl n h⟩
        · cases hcall
      · cases hcall
        exact ⟨hok, preservesBelow_refl n h⟩
    · cases hcall
      exact ⟨hok, preservesBelow_refl n h⟩
    · cases hcall

/-- The loop over the cloned messages keeps the region closed and
touches no cell below the bound. -/
theorem processMessagesListH_spec (env : S3Env) (fuel : Nat)
    (msgVals : List HVal) :
    ∀ (h : Heap) (k n : Nat), RegionOk n h →
    (∀ v ∈ msgVals, HVal.refGe n v) →
    ∀ st, processMessagesListH env fuel h k msgVals = some st →
    RegionOk n st.heap ∧ PreservesBelow n h st.heap := by
  induction msgVals with
  | nil =>
    intro h k n hok _ st hcall
    simp only [processMessagesListH] at hcall
    cases hcall
    exact ⟨hok, preservesBelow_refl n h⟩
  | cons mv rest ih =>
    intro h k n hok hvs st hcall
    simp only [processMessagesListH] at hcall
    cases hstep : processMessageH env fuel h k mv with
    | none =>
      rw [hstep] at hcall
      cases hcall
    | some s1 =>
      rw [hstep] at hcall
      obtain ⟨hok1, hpres1⟩ := processMessageH_spec env fuel h k mv n hok
        (hvs mv (List.mem_cons_self mv rest)) s1 hstep
      cases s1 with
      | thrown h2 =>
        cases hcall
        exact ⟨hok1, hpres1⟩
      | ok h2 k2 =>
        obtain ⟨hok2, hpres2⟩ := ih h2 k2 n hok1
          (fun v hv => hvs v (List.mem_cons_of_mem mv hv)) st hcall
        exact ⟨hok2, preservesBelow_trans hpres1 hpres2⟩

/-- The heap-level processMessagesForBase64 never changes a cell that
existed before the call, whether it completes or throws. -/
theorem processMessagesForBase64H_spec (env : S3Env) (fuel : Nat) (h : Heap)
    (k : Nat) (msgs : HVal) :
    ∀ st, processMessagesForBase64H env fuel h k msgs = some st →
    PreservesBelow h.size h st.heap := by
  intro st hcall
  simp only [processMessagesForBase64H] at hcall
  split at hcall
  · cases hcall
  rename_i j hrv
  obtain ⟨hsz, hpres, hok, hval⟩ :=
    allocJson_spec j h h.size ⟨Nat.le_refl _, goodRegion_of_size h⟩
  split at hcall
  · cases hcall
    exact hpres
  · rename_i a hcv
    have hna : h.size ≤ a := by
      rw [hcv] at hval
      exact hval
    split at hcall
    · rename_i msgVals hread
      have hvs : ∀ v ∈ msgVals, HVal.refGe h.size v :=
        hok.2 a (.arr msgVals) hna hread
      split at hcall
      · cases hcall
      · rename_i h2 hstep
        cases hcall
        exact preservesBelow_trans hpres
          (processMessagesListH_spec env fuel msgVals (allocJson j h).1 k
            h.size hok hvs _ hstep).2
      · rename_i h2 k2 hstep
        cases hcall
        exact preservesBelow_trans hpres
          (processMessagesListH_spec env fuel msgVals (allocJson j h).1 k
            h.size hok hvs _ hstep).2
    · cases hcall
      exact hpres
    · cases hcall
  · cases hcall
    exact hpres

mutual

/-- The generic walk never changes a pre-existing cell: it only reads
and allocates, so the heap only grows. -/
theorem replaceHB_preserves (env : S3Env) (fuel : Nat) (h : Heap) (k : Nat)
    (v : HVal) (fn mt : Option Json) :
    ∀ h2 v2 k2, replaceHB env fuel h k v fn mt = some (h2, v2, k2) →
    h.size ≤ h2.size ∧ PreservesBelow h.size h h2 := by
  intro h2 v2 k2 hcall
  cases v with
  | null =>
    simp only [replaceHB] at hcall
    cases hcall
    exact ⟨Nat.le_refl _, preservesBelow_refl _ _⟩
  | bool b =>
    simp only [replaceHB] at hcall
    cases hcall
    exact ⟨Nat.le_refl _, preservesBelow_refl _ _⟩
  | num m =>
    simp only [replaceHB] at hcall
    cases hcall
    exact ⟨Nat.le_refl _, preservesBelow_refl _ _⟩
  | str s =>
    simp only [replaceHB] at hcall
    split at hcall
    all_goals try split at hcall
    all_goals try split at hcall
    all_goals cases hcall
    all_goals exact ⟨Nat.le_refl _, preservesBelow_refl _ _⟩
  | ref a =>
    cases fuel with
    | zero =>
      simp only [replaceHB] at hcall
      cases hcall
    | succ fuel2 =>
      simp only [replaceHB] at hcall
      split at hcall
      · rename_i elems hread
        split at hcall
        · cases hcall
        · rename_i h3 vs k3 hstep
          obtain ⟨hsz, hpres⟩ :=
            replaceHBList_preserves env fuel2 h k elems fn mt h3 vs k3 hstep
          cases hcall
          refine ⟨?_, ?_⟩
          · rw [Heap.size_alloc]
            omega
          · exact preservesBelow_trans hpres
              (preservesBelow_mono hsz (preservesBelow_alloc _ (Nat.le_refl _)))
      · rename_i fields hread
        split at hcall
        · cases hcall
        · rename_i h3 fs k3 hstep
          obtain ⟨hsz, hpres⟩ := replaceHBFields_preserves env fuel2 h k
            (lookupF fields "mimeType") fields fn mt h3 fs k3 hstep
          cases hcall
          refine ⟨?_, ?_⟩
          · rw [Heap.size_alloc]
            omega
          · exact preservesBelow_trans hpres
              (preservesBelow_mono hsz (preservesBelow_alloc _ (Nat.le_refl _)))
      · cases hcall

/-- The element walk never changes a pre-existing cell. -/
theorem replaceHBList_preserves (env : S3Env) (fuel : Nat) (h : Heap)
    (k : Nat) (elems : List HVal) (fn mt : Option Json) :
    ∀ h2 vs2 k2, replaceHBList env fuel h k elems fn mt = some (h2, vs2, k2) →
    h.size ≤ h2.size ∧ PreservesBelow h.size h h2 := by
  intro h2 vs2 k2 hcall
  cases elems with
  | nil =>
    simp only [replaceHBList] at hcall
    cases hcall
    exact ⟨Nat.le_refl _, preservesBelow_refl _ _⟩
  | cons x rest =>
    simp only [replaceHBList] at hcall
    split at hcall
    · cases hcall
    · rename_i h3 x2 k3 hstep
      split at hcall
      · cases hcall
      · rename_i h4 xs2 k4 hstep2
        obtain ⟨hs1, hp1⟩ :=
          replaceHB_preserves env fuel h k x fn mt h3 x2 k3 hstep
        obtain ⟨hs2, hp2⟩ :=
          replaceHBList_preserves env fuel h3 k3 rest fn mt h4 xs2 k4 hstep2
        cases hcall
        exact ⟨Nat.le_trans hs1 hs2,
          preservesBelow_trans hp1 (preservesBelow_mono hs1 hp2)⟩

/-- The field walk never changes a pre-existing cell. -/
theorem replaceHBFields_preserves (env : S3Env) (fuel : Nat) (h : Heap)
    (k : Nat) (pm : Option HVal) (fields : List (String × HVal))
    (fn mt : Option Json) :
    ∀ h2 fs2 k2,
    replaceHBFields env fuel h k pm fields fn mt = some (h2, fs2, k2) →
    h.size ≤ h2.size ∧ PreservesBelow h.size h h2 := by
  intro h2 fs2 k2 hcall
  cases fields with
  | nil =>
    simp only [replaceHBFields] at hcall
    cases hcall
    exact ⟨Nat.le_refl _, preservesBelow_refl _ _⟩
  | cons kv rest =>
    obtain ⟨key, v⟩ := kv
    simp only [replaceHBFields] at hcall
    split at hcall
    · cases hcall
    · rename_i cm hcm
      split at hcall
      · cases hcall
      · rename_i h3 v2 k3 hstep
        split at hcall
        · cases hcall
        · rename_i h4 gs2 k4 hstep2
          obtain ⟨hs1, hp1⟩ :=
            replaceHB_preserves env fuel h k v fn cm h3 v2 k3 hstep
          obtain ⟨hs2, hp2⟩ := replaceHBFields_preserves env fuel h3 k3 pm
            rest fn mt h4 gs2 k4 hstep2
          cases hcall
          exact ⟨Nat.le_trans hs1 hs2,
            preservesBelow_trans hp1 (preservesBelow_mono hs1 hp2)⟩

end

/-- The generic-walk path of the tool-result offload never changes a
pre-existing cell. -/
theorem trGenericPathH_spec (env : S3Env) (fuel : Nat) (h : Heap) (k : Nat)
    (rv : HVal) (fn : Option String) :
    ∀ st, trGenericPathH env fuel h k rv fn = some st →
    PreservesBelow h.size h st.heap := by
  intro st hcall
  simp only [trGenericPathH] at hcall
  split at hcall
  · cases hcall
  · rename_i h2 v2 k2 hstep
    cases hcall
    exact (replaceHB_preserves env fuel h k rv (fn.map Json.str) none
      h2 v2 k2 hstep).2

/-- The content path of the tool-result offload never changes a
pre-existing cell: it mutates only the freshly allocated clone. -/
theorem toolResultContentPathH_spec (env : S3Env) (fuel : Nat) (h : Heap)
    (k : Nat) (rv : HVal) (fn : Option String) :
    ∀ st, toolResultContentPathH env fuel h k rv fn = some st →
    PreservesBelow h.size h st.heap := by
  intro st hcall
  simp only [toolResultContentPathH] at hcall
  split at hcall
  · cases hcall
  rename_i j hrv
  obtain ⟨hsz, hpres, hok, hval⟩ :=
    allocJson_spec j h h.size ⟨Nat.le_refl _, goodRegion_of_size h⟩
  split at hcall
  · rename_i a2 hcv
    have hna : h.size ≤ a2 := by
      rw [hcv] at hval
      exact hval
    split at hcall
    · rename_i fields2 hread
      have hf2 : ∀ kv ∈ fields2, HVal.refGe h.size kv.2 :=
        hok.2 a2 (.obj fields2) hna hread
      split at hcall
      · rename_i ca2 hlk
        have hca : h.size ≤ ca2 :=
          lookupF_refGe h.size "content" fields2 (.ref ca2) hf2 hlk
        split at hcall
        · rename_i items2 hread2
          have hvs : ∀ v ∈ items2, HVal.refGe h.size v :=
            hok.2 ca2 (.arr items2) hca hread2
          split at hcall
          · cases hcall
          · rename_i h2 hstep
            cases hcall
            exact preservesBelow_trans hpres
              (processContentListH_spec env fuel fn items2 (allocJson j h).1
                k h.size hok hvs _ hstep).2
          · rename_i h2 k2 hstep
            cases hcall
            exact preservesBelow_trans hpres
              (processContentListH_spec env fuel fn items2 (allocJson j h).1
                k h.size hok hvs _ hstep).2
        · cases hcall
      · cases hcall
    · cases hcall
  · cases hcall

/-- The heap-level processToolResultForBase64 never changes a
pre-existing cell on either path. -/
theorem processToolResultForBase64H_spec (env : S3Env) (fuel : Nat)
    (h : Heap) (k : Nat) (rv : HVal) (fn : Option String) :
    ∀ st, processToolResultForBase64H env fuel h k rv fn = some st →
    PreservesBelow h.size h st.heap := by
  intro st hcall
  cases rv with
  | null =>
    simp only [processToolResultForBase64H] at hcall
    exact trGenericPathH_spec env fuel h k _ fn st hcall
  | bool b =>
    simp only [processToolResultForBase64H] at hcall
    exact trGenericPathH_spec env fuel h k _ fn st hcall
  | num m =>
    simp only [processToolResultForBase64H] at hcall
    exact trGenericPathH_spec env fuel h k _ fn st hcall
  | str s =>
    simp only [processToolResultForBase64H] at hcall
    exact trGenericPathH_spec env fuel h k _ fn st hcall
  | ref a =>
    simp only [processToolResultForBase64H] at hcall
    split at hcall
    · cases hcall
    · exact trGenericPathH_spec env fuel h k _ fn st hcall
    · rename_i fields hread
      split at hcall
      · rename_i ca hlk
        split at hcall
        · cases hcall
        · exact toolResultContentPathH_spec env fuel h k _ fn st hcall
        · exact trGenericPathH_spec env fuel h k _ fn st hcall
      · exact trGenericPathH_spec env fuel h k _ fn st hcall

/-- The heap-level processToolCallForBase64 never changes a pre-existing
cell: it clones the arguments and walks the clone. -/
theorem processToolCallForBase64H_spec (env : S3Env) (fuel : Nat) (h : Heap)
    (k : Nat) (tn : String) (args : HVal) :
    ∀ st, processToolCallForBase64H env fuel h k tn args = some st →
    PreservesBelow h.size h st.heap := by
  intro st hcall
  simp only [processToolCallForBase64H] at hcall
  split at hcall
  · cases hcall
  rename_i j hrv
  obtain ⟨hsz, hpres, hok, hval⟩ :=
    allocJson_spec j h h.size ⟨Nat.le_refl _, goodRegion_of_size h⟩
  split at hcall
  · cases hcall
  · rename_i fnameJ hfn
    split at hcall
    · cases hcall
    · rename_i h2 v2 k2 hstep
      cases hcall
      exact preservesBelow_trans hpres
        (preservesBelow_mono hsz
          (replaceHB_preserves env fuel (allocJson j h).1 k (allocJson j h).2
            fnameJ none h2 v2 k2 hstep).2)

/-- C3: for every input to any of the three offload entry points over
the heap model (processMessagesForBase64, processToolCallForBase64,
processToolResultForBase64), the caller's original object graph is
unchanged after the call — every heap cell that existed before the call
reads the same afterwards, whether the call completes or throws, and on
every path including the tool-result path with no content-part sequence
(the generic walk): all substitutions are performed on freshly allocated
cells of the structural clone that is returned. -/
theorem c3_no_input_mutation (env : S3Env) (fuel : Nat) (h : Heap) (k : Nat)
    (msgs rv args : HVal) (toolName : String) (filename : Option String) :
    (∀ st, processMessagesForBase64H env fuel h k msgs = some st →
      ∀ a, a < h.size → st.heap.read a = h.read a) ∧
    (∀ st, processToolResultForBase64H env fuel h k rv filename = some st →
      ∀ a, a < h.size → st.heap.read a = h.read a) ∧
    (∀ st, processToolCallForBase64H env fuel h k toolName args = some st →
      ∀ a, a < h.size → st.heap.read a = h.read a) :=
  ⟨fun st hcall a ha =>
    processMessagesForBase64H_spec env fuel h k msgs st hcall a ha,
   fun st hcall a ha =>
    processToolResultForBase64H_spec env fuel h k rv filename st hcall a ha,
   fun st hcall a ha =>
    processToolCallForBase64H_spec env fuel h k toolName args st hcall a ha⟩

/-- A concrete run of the three entry points on a one-cell heap, with
the non-mutation conclusion instantiated through c3_no_input_mutation. -/
theorem c3_no_input_mutation_witness :
    (JsStep.thrown (⟨[HNode.arr []]⟩ : Heap) : JsStep (HVal × Nat)).heap.read
      0 = Heap.read ⟨[HNode.arr []]⟩ 0 ∧
    (JsStep.ok (⟨[HNode.arr []]⟩ : Heap)
      ((HVal.null : HVal), 0) : JsStep (HVal × Nat)).heap.read 0 =
      Heap.read ⟨[HNode.arr []]⟩ 0 ∧
    (JsStep.ok (⟨[HNode.arr []]⟩ : Heap)
      ("t", (HVal.null : HVal), 0)).heap.read 0 =
      Heap.read ⟨[HNode.arr []]⟩ 0 := by
  refine ⟨?_, ?_, ?_⟩
  · exact (c3_no_input_mutation okEnv 1 ⟨[HNode.arr []]⟩ 0 HVal.null HVal.null
      HVal.null "t" none).1 _
      (by simp [processMessagesForBase64H, readVal, allocJson]) 0
      (by simp [Heap.size])
  · exact (c3_no_input_mutation okEnv 1 ⟨[HNode.arr []]⟩ 0 HVal.null HVal.null
      HVal.null "t" none).2.1 _
      (by simp [processToolResultForBase64H, trGenericPathH, replaceHB]) 0
      (by simp [Heap.size])
  · exact (c3_no_input_mutation okEnv 1 ⟨[HNode.arr []]⟩ 0 HVal.null HVal.null
      HVal.null "t" none).2.2 _
      (by simp [processToolCallForBase64H, readVal, allocJson,
        toolArgsFilenameH, replaceHB]) 0
      (by simp [Heap.size])
